import Mathlib

set_option linter.unusedVariables false

/-!
Formal model of `src/ringest.py` (and its caller `src/component.py`):
a batch ingestion job that leases API credentials from a shared pool,
issues rate-limited HTTP requests, expands comment trees by resolving
`more` placeholder nodes, flattens the trees, and partitions time windows.

Python dictionaries/JSON documents are embedded as the inductive type `J`
(dicts are association lists with first-match lookup and in-place update,
matching Python dict semantics for string keys).  Fallible Python code
(KeyError, AttributeError, AssertionError, TypeError, ...) is embedded as
`Except String`.
-/

/-- A Python/JSON value as manipulated by `ringest.py`: `null` (Python
`None`), booleans, integers, strings, lists and string-keyed dicts. -/
inductive J where
  | null : J
  | bool : Bool → J
  | num : Int → J
  | str : String → J
  | arr : List J → J
  | obj : List (String × J) → J

/-- First-match lookup in an association list: Python `d[k]` / `d.get(k)`
on a dict whose insertion order is the list order. -/
def lookupKey : List (String × J) → String → Option J
  | [], _ => none
  | (k, v) :: rest, key => if k = key then some v else lookupKey rest key

/-- Python `d[key] = v` on a dict: an existing key keeps its position,
a new key is appended at the end. -/
def setKey : List (String × J) → String → J → List (String × J)
  | [], key, v => [(key, v)]
  | (k, w) :: rest, key, v =>
      if k = key then (k, v) :: rest else (k, w) :: setKey rest key v

/-- Python truthiness of a value (`if x:`): `None`, `False`, `0`, `''`,
`[]` and the empty dict are falsy, everything else is truthy. -/
def truthy : J → Bool
  | .null => false
  | .bool b => b
  | .num n => n ≠ 0
  | .str s => ¬ s.isEmpty
  | .arr xs => ¬ xs.isEmpty
  | .obj fs => ¬ fs.isEmpty

/-- A value found by `lookupKey` is structurally smaller than the field list
(termination measure for the recursive tree walks below). -/
def sizeOf_lookupKey {fs : List (String × J)} {k : String} {v : J}
    (h : lookupKey fs k = some v) : sizeOf v < sizeOf fs := by
  induction fs with
  | nil => simp [lookupKey] at h
  | cons hd tl ih =>
    obtain ⟨a, b⟩ := hd
    rw [lookupKey] at h
    by_cases hk : a = k
    · simp [hk] at h
      subst h
      simp
      omega
    · simp [hk] at h
      have := ih h
      simp
      omega

/-- A successful lookup forces a nonempty field list. -/
def lookupKey_ne_nil {fs : List (String × J)} {k : String} {v : J}
    (h : lookupKey fs k = some v) : fs ≠ [] := by
  intro hfs; subst hfs; simp [lookupKey] at h

/-- A dict with at least one field is strictly larger than the empty dict
(termination measure for recursing into a defaulted `dict()`). -/
def sizeOf_obj_gt_two {fs : List (String × J)} (h : fs ≠ []) :
    2 < sizeOf (J.obj fs) := by
  match fs, h with
  | (a, b) :: tl, _ =>
    simp
    omega

/-!
## CommentFlattener: `flatten_comments` (ringest.py lines 16-47), value-level model

`traverseListing` mirrors the inner `traverse(comment_listing)` closure; instead of
appending to the shared `flattened_comments` list it returns the sequence of
records it appends, in order (appends of successive calls concatenate).
-/

mutual

/-- `traverse(comment_listing)` (ringest.py lines 35-42): assert the node is a
`Listing`, then walk `comment_listing["data"]["children"]`.  Non-dict input,
missing keys, and iteration over non-lists raise, as in Python. -/
def traverseListing : J → Except String (List J)
  | .obj fs =>
    match lookupKey fs "kind" with
    | none => .error "KeyError"                -- comment_listing["kind"]
    | some (.str "Listing") =>                 -- assert kind == "Listing"
      match hd : lookupKey fs "data" with
      | none => .error "KeyError"              -- comment_listing["data"]
      | some (.obj ds) =>
        match hc : lookupKey ds "children" with
        | none => .error "KeyError"            -- ...["children"]
        | some (.arr cs) => traverseChildren cs
        -- iterating a non-list: a nonempty str/dict yields strings, and
        -- `dict(child)` on a string then raises; empty ones do nothing
        | some (.str s) => if s.isEmpty then .ok [] else .error "TypeError"
        | some (.obj gs) => if gs.isEmpty then .ok [] else .error "TypeError"
        | some _ => .error "TypeError"
      | some _ => .error "TypeError"           -- indexing a non-dict "data"
    | some _ => .error "AssertionError"        -- assert fails on other kinds
  | _ => .error "TypeError"                    -- ["kind"] on a non-dict
termination_by j => sizeOf j
decreasing_by
  have h1 := sizeOf_lookupKey hc
  have h2 := sizeOf_lookupKey hd
  simp at h1 h2 ⊢
  omega

/-- The body of `for child in comment_listing["data"]["children"]`
(ringest.py lines 37-42): clone the child, replace the clone's `"data"` by a
copy without the `"replies"` key, emit the clone, and if the child's
`data.get("replies")` is truthy, recurse into it before the next sibling. -/
def traverseChildren : List J → Except String (List J)
  | [] => .ok []
  | child :: rest =>
    match child with
    | .obj cfs =>
      match hdd : lookupKey cfs "data" with
      | some (.obj dfs) =>
        -- clone = dict(child); clone["data"] = {k: v minus "replies"}
        let stripped := J.obj (setKey cfs "data"
          (.obj (dfs.filter (fun kv => kv.1 ≠ "replies"))))
        -- if child["data"].get("replies"):  (absent key defaults to falsy None)
        match hrep : lookupKey dfs "replies" with
        | some rep =>
          if truthy rep then do
            let sub ← traverseListing rep     -- traverse(child["data"]["replies"])
            let tail ← traverseChildren rest
            .ok (stripped :: (sub ++ tail))
          else do
            let tail ← traverseChildren rest
            .ok (stripped :: tail)
        | none => do
          let tail ← traverseChildren rest
          .ok (stripped :: tail)
      | some _ => .error "AttributeError"      -- .items() on a non-dict
      | none => .error "KeyError"              -- clone["data"]
    | _ => .error "TypeError"                  -- dict(child) of a non-dict
termination_by l => sizeOf l
decreasing_by
  all_goals first
    | (have h1 := sizeOf_lookupKey hrep
       have h2 := sizeOf_lookupKey hdd
       simp at h1 h2 ⊢
       try omega)
    | (simp; try omega)

end

/-- The loop `for cl in comments[1:]: traverse(cl)` (ringest.py lines 44-45):
records appended by successive calls concatenate in order. -/
def traverseListings : List J → Except String (List J)
  | [] => .ok []
  | cl :: rest => do
    let xs ← traverseListing cl
    let ys ← traverseListings rest
    .ok (xs ++ ys)

/-- `flatten_comments(link_doc)` (ringest.py lines 16-47): check the assertion
that `comments[0]` is a `Listing` with exactly one child of kind `"t3"`, walk
every later listing, and return `dict(link_doc, flattened_comments=...)` —
a copy of the input document with the `flattened_comments` key set. -/
def flatten_comments (link_doc : J) : Except String J :=
  match link_doc with
  | .obj lfs =>
    match lookupKey lfs "comments" with
    | none => .error "KeyError"                -- link_doc["comments"]
    | some (.arr comments) =>
      match comments with
      | [] => .error "IndexError"              -- comments[0]
      | c0 :: rest =>
        match c0 with
        | .obj c0fs =>
          match lookupKey c0fs "kind" with
          | none => .error "KeyError"
          | some (.str "Listing") =>           -- comments[0]["kind"] == "Listing"
            match lookupKey c0fs "data" with
            | none => .error "KeyError"
            | some (.obj d0s) =>
              match lookupKey d0s "children" with
              | none => .error "KeyError"
              | some (.arr ch0) =>
                match ch0 with
                | [p] =>                       -- len(children) == 1
                  match p with
                  | .obj pfs =>
                    match lookupKey pfs "kind" with
                    | none => .error "KeyError"
                    | some (.str "t3") => do   -- children[0]["kind"] == "t3"
                      let fcs ← traverseListings rest
                      .ok (.obj (setKey lfs "flattened_comments" (.arr fcs)))
                    | some _ => .error "AssertionError"
                  | _ => .error "TypeError"
                | _ => .error "AssertionError"
              | some _ => .error "AssertionError"
            | some _ => .error "TypeError"
          | some _ => .error "AssertionError"
        | _ => .error "TypeError"
    | some _ => .error "TypeError"             -- comments[0] on a non-list
  | _ => .error "TypeError"

/-!
## CommentTreeExpander: `Ringest.populate_thing` (ringest.py lines 435-457)

The single network-dependent step — `self.do_morechildren(link_name,
child_ids)` in the `more` branch — is abstracted as the oracle argument
`more : String → List J → List J` (the list returned for a given link name
and child-id list); the claims hold for every oracle.  `do_morechildren`
itself is modelled separately below.
-/

mutual

/-- `Ringest.populate_thing(d, link_name)` (ringest.py lines 435-457):
dispatch on `d.get('kind')`; a `Listing` populates each child of
`d['data'].get('children', [])` in place when nonempty; a `t1` comment sets
`d['replies'] = populate_thing(d.get('replies', dict()), ...)` (note: the
top-level `replies` key, not `data.replies`); a `more` node replaces
`d['data']['children']` by the `do_morechildren` result; `t3` and every
other kind pass through unchanged. -/
def populate_thing (more : String → List J → List J) (link_name : String) :
    J → Except String J
  | .obj fs =>
    match hk : lookupKey fs "kind" with         -- kind = d.get('kind')
    | some (.str "Listing") =>
      match hd : lookupKey fs "data" with
      | none => .error "KeyError"               -- d['data']
      | some (.obj ds) =>
        -- children = d['data'].get('children', [])
        match hc : lookupKey ds "children" with
        | some (.arr cs) =>
          if cs.isEmpty then .ok (.obj fs)      -- len(children) == 0: no write
          else do
            let cs2 ← populateChildren more link_name cs
            .ok (.obj (setKey fs "data" (.obj (setKey ds "children" (.arr cs2)))))
        | none => .ok (.obj fs)                 -- default [] has len 0
        -- len() of a nonempty str/dict iterates strings, and populate_thing
        -- of a string raises AttributeError at d.get('kind')
        | some (.str s) => if s.isEmpty then .ok (.obj fs) else .error "AttributeError"
        | some (.obj gs) => if gs.isEmpty then .ok (.obj fs) else .error "AttributeError"
        | some _ => .error "TypeError"          -- len() of None/bool/int
      | some _ => .error "AttributeError"       -- .get on a non-dict data
    | some (.str "t1") =>
      -- d['replies'] = populate_thing(d=d.get('replies', dict()), ...)
      match hr : lookupKey fs "replies" with
      | some r => do
        let r2 ← populate_thing more link_name r
        .ok (.obj (setKey fs "replies" r2))
      | none => do
        let r2 ← populate_thing more link_name (.obj [])
        .ok (.obj (setKey fs "replies" r2))
    | some (.str "more") =>
      match lookupKey fs "data" with
      | none => .error "KeyError"               -- d['data']
      | some (.obj ds) =>
        -- d['data']['children'] =
        --   do_morechildren(link_name, d['data'].get('children', []))
        match lookupKey ds "children" with
        | some (.arr cs) =>
          .ok (.obj (setKey fs "data" (.obj (setKey ds "children"
            (.arr (more link_name cs))))))
        | none =>
          .ok (.obj (setKey fs "data" (.obj (setKey ds "children"
            (.arr (more link_name []))))))
        | some _ => .error "TypeError"          -- ids must form a list here
      | some _ => .error "AttributeError"
    | some (.str "t3") => .ok (.obj fs)         -- pass
    | some _ => .ok (.obj fs)                   -- unrecognized kind: pass
    | none => .ok (.obj fs)                     -- missing kind: pass
  | _ => .error "AttributeError"                -- d.get('kind') on a non-dict
termination_by j => sizeOf j
decreasing_by
  all_goals first
    | (have h1 := sizeOf_lookupKey hc
       have h2 := sizeOf_lookupKey hd
       simp at h1 h2 ⊢
       try omega)
    | (have h1 := sizeOf_lookupKey hr
       simp at h1 ⊢
       try omega)
    | (have h1 := sizeOf_obj_gt_two (lookupKey_ne_nil hk)
       simp at h1 ⊢
       try omega)

/-- The list comprehension
`[self.populate_thing(d=c, link_name=link_name) for c in children]`
(ringest.py lines 441-443), propagating the first raised error. -/
def populateChildren (more : String → List J → List J) (link_name : String) :
    List J → Except String (List J)
  | [] => .ok []
  | c :: rest => do
    let c2 ← populate_thing more link_name c
    let rest2 ← populateChildren more link_name rest
    .ok (c2 :: rest2)
termination_by l => sizeOf l
decreasing_by
  all_goals simp; try omega

end

mutual

/-- Decidable domain for the amended claim C1: trees on which
`populate_thing` is the identity.  They are well formed (no Python error is
raised), contain no `"more"` node, and every `"t1"` comment node carries a
top-level `"replies"` field (a `t1` without one has `replies = dict()`
inserted by `populate_thing`, so expansion would not be a no-op there). -/
def wfNoMore : J → Bool
  | .obj fs =>
    match lookupKey fs "kind" with
    | some (.str "Listing") =>
      match hd : lookupKey fs "data" with
      | some (.obj ds) =>
        match hc : lookupKey ds "children" with
        | some (.arr cs) => wfNoMoreList cs
        | none => true
        | _ => false
      | _ => false
    | some (.str "t1") =>
      match hr : lookupKey fs "replies" with
      | some r => wfNoMore r
      | none => false
    | some (.str "more") => false
    | some _ => true
    | none => true
  | _ => false
termination_by j => sizeOf j
decreasing_by
  all_goals first
    | (have h1 := sizeOf_lookupKey hc
       have h2 := sizeOf_lookupKey hd
       simp at h1 h2 ⊢
       try omega)
    | (have h1 := sizeOf_lookupKey hr
       simp at h1 ⊢
       try omega)

/-- `wfNoMore` for every element of a child list. -/
def wfNoMoreList : List J → Bool
  | [] => true
  | c :: rest => wfNoMore c && wfNoMoreList rest
termination_by l => sizeOf l
decreasing_by
  all_goals simp; try omega

end

mutual

/-- Does the value contain, at any depth (through list elements and dict
values), a dict whose `"kind"` field is `"more"`?  This is claim C1's
"tree containing no 'more'-kind (MorePlaceholder) nodes", stated over the
whole document. -/
def containsMore : J → Bool
  | .obj fs =>
    (match lookupKey fs "kind" with
     | some (.str "more") => true
     | _ => false) || containsMoreFields fs
  | .arr xs => containsMoreList xs
  | _ => false
termination_by j => sizeOf j
decreasing_by
  all_goals simp; try omega

/-- `containsMore` over list elements. -/
def containsMoreList : List J → Bool
  | [] => false
  | x :: rest => containsMore x || containsMoreList rest
termination_by l => sizeOf l
decreasing_by
  all_goals simp; try omega

/-- `containsMore` over dict field values. -/
def containsMoreFields : List (String × J) → Bool
  | [] => false
  | (k, v) :: rest => containsMore v || containsMoreFields rest
termination_by l => sizeOf l
decreasing_by
  all_goals simp; try omega

end

/-!
## WindowPartitioner: `Ringest.partition_window` (ringest.py lines 312-318)

`int(start_time.timestamp())` and `int(end_time.timestamp())` are taken as
given integers; the function is pure arithmetic from there on.
-/

/-- Python `range(start, stop, step)` for a positive step: the integers
`start, start + step, ...` strictly below `stop` (empty when
`start >= stop`).  `partition_window` only instantiates positive steps. -/
def pyRange (start stop step : Int) : List Int :=
  (List.range ((stop - start + step - 1) / step).toNat).map
    (fun (k : Nat) => start + step * (k : Int))

/-- `Ringest.partition_window(start_time, end_time, part_size_seconds,
utc_offset)` (ringest.py lines 312-318): add the offset to both integer
timestamps and return `[(i, min(i + part_size_seconds - 1, end_uts)) for i
in range(start_uts, end_uts, part_size_seconds)]`. -/
def partition_window (start_ts end_ts part_size_seconds utc_offset : Int) :
    List (Int × Int) :=
  let start_uts := start_ts + utc_offset
  let end_uts := end_ts + utc_offset
  (pyRange start_uts end_uts part_size_seconds).map
    (fun i => (i, min (i + part_size_seconds - 1) end_uts))

/-- Is the integer point `x` inside one of the returned inclusive
intervals?  (Claim C3's notion of the union of the intervals.) -/
def coveredBy (l : List (Int × Int)) (x : Int) : Prop :=
  ∃ p ∈ l, p.1 ≤ x ∧ x ≤ p.2

instance (l : List (Int × Int)) (x : Int) : Decidable (coveredBy l x) := by
  unfold coveredBy; infer_instance

/-!
## CredentialLeaseManager: `Ringest.lock_creds` / `Ringest.release_creds`
(ringest.py lines 109-179)

The `auth_library` table is a list of rows; SQL `UPDATE ... RETURNING`
statements become list transformations returning the affected unames in
table order.  Wall-clock time is a strictly increasing integer counter: it
advances by one unit at each `sleep(1)` and at each timestamp observation
(`datetime.now()` / SQL `CURRENT_TIMESTAMP`), reflecting that real time
strictly increases between successive observations.
-/

/-- One row of `auth_library`: platform, credential user name, and the
`available` timestamp (an identity is claimable when `available < now`). -/
structure AuthRow where
  platform : String
  uname : String
  available : Int
deriving DecidableEq, Repr

/-- The credential-pool table, in row order. -/
abbrev AuthDB := List AuthRow

/-- The WHERE clause of the claiming UPDATE (ringest.py lines 136-138):
`platform = 'reddit' AND available < now`. -/
def claimable (now : Int) (r : AuthRow) : Bool :=
  r.platform == "reddit" && decide (r.available < now)

/-- `Ringest.release_creds(unames)` (ringest.py lines 109-132): when the
list is nonempty, run `UPDATE auth_library SET available =
CURRENT_TIMESTAMP WHERE platform = 'reddit' AND uname in (...)`; the
timestamp observation advances the clock.  An empty list issues no query
and leaves table and clock untouched. -/
def release_creds (unames : List String) (db : AuthDB) (t : Int) :
    AuthDB × Int :=
  if unames.length > 0 then
    let tq := t + 1
    (db.map (fun r =>
      if r.platform == "reddit" && decide (r.uname ∈ unames) then
        { r with available := tq } else r), tq)
  else (db, t)

/-- The claiming UPDATE of `lock_creds` (ringest.py lines 136-139,
156-157): set `available` to the reservation expiry on every claimable
reddit row and return the claimed unames in table order. -/
def lockQuery (db : AuthDB) (now avail : Int) : AuthDB × List String :=
  (db.map (fun r => if claimable now r then { r with available := avail } else r),
   (db.filter (claimable now)).map (fun r => r.uname))

/-- `lock_loop` inside `Ringest.lock_creds` (ringest.py lines 141-170).
`remaining` is the unused attempt budget (`max_attempts - attempts`; the
top call passes 2).  Per attempt: `sleep(1)`; release whatever was claimed
before (a no-op on the first attempt); claim every available row; if more
than `count` came back, release the surplus and truncate to the first
`count` (the stray `select * from auth_library` there has no effect);
loop while fewer than `count` are held and attempts remain; raise
`ConnectionError("Unable to reserve credentials.")` if the budget ends
with fewer than `count`.  Also returns the table, the clock, and the trace
of `(claimed unames, claim time)`, one entry per attempt. -/
def lock_loop (count : Nat) (res : Int) :
    Nat → List String → AuthDB → Int → List (List String × Int) →
    Except String (List String) × AuthDB × Int × List (List String × Int)
  | remaining, unames, db, t, trace =>
    if unames.length < count then
      match remaining with
      | 0 => (.error "Unable to reserve credentials.", db, t, trace)
      | r + 1 =>
        let t1 := t + 1                          -- sleep(1)
        let rel := release_creds unames db t1
        let now := rel.2 + 1                     -- now = datetime.now(...)
        let lq := lockQuery rel.1 now (now + res)
        let fetched := lq.2
        let trace2 := trace ++ [(fetched, now)]
        if fetched.length > count then
          let rel2 := release_creds (fetched.drop count) lq.1 now
          lock_loop count res r (fetched.take count) rel2.1 rel2.2 trace2
        else
          lock_loop count res r fetched lq.1 now trace2
    else (.ok unames, db, t, trace)

/-- `Ringest.lock_creds(count, reservation_hours, reservation_minutes)`
(ringest.py lines 134-179): run `lock_loop` with `max_attempts = 2`; the
reservation is `hours*3600 + minutes*60` clock units
(`timedelta(hours=..., minutes=...)` in seconds). -/
def lock_creds (count : Nat) (reservation_hours reservation_minutes : Int)
    (db : AuthDB) (t : Int) :
    Except String (List String) × AuthDB × Int × List (List String × Int) :=
  lock_loop count (reservation_hours * 3600 + reservation_minutes * 60)
    2 [] db t []

/-!
## RateLimitedClient: `Ringest.fetch_tokens` / `Ringest.request`
(ringest.py lines 181-310)

HTTP is an oracle: `tokenResps` lists the token-endpoint POST responses
(one per leased identity, in order) and `o k` is the response to the `k`-th
GET this client issues (`k` = the value of `request_count` when the GET is
sent).  The identity→secret dict of lines 182-233 is abstracted as the
lookup `password_map`; its literal secrets are irrelevant to every claim.
-/

/-- A parsed HTTP response: status code, headers, JSON body. -/
structure Response where
  status : Nat
  headers : List (String × String)
  body : J

/-- A Python value that is either an int or a str: the type of the
rate-limit fields, which hold int defaults when a header is absent and the
raw header string when present. -/
inductive PyVal where
  | int (n : Int)
  | str (s : String)
deriving DecidableEq, Repr

/-- Python `x == n` against an int: a str never equals an int (so
`self.rate_limit_remaining == 0` is false whenever the field holds a
header string, even `"0"`). -/
def PyVal.eqInt : PyVal → Int → Bool
  | .int m, n => m == n
  | .str _, _ => false

/-- `Ringest.default_rate_limit_remaining` (ringest.py lines 53-55). -/
def default_rate_limit_remaining : Int := 60

/-- `Ringest.default_rate_limit_reset` (ringest.py lines 57-59). -/
def default_rate_limit_reset : Int := 5

/-- `response.headers.get(name)`: exact-name lookup in the header list. -/
def lookupHeader : List (String × String) → String → Option String
  | [], _ => none
  | (k, v) :: rest, key => if k = key then some v else lookupHeader rest key

/-- The mutable `Ringest` fields read and written by `fetch_tokens` and
`request` (ringest.py lines 61-72). -/
structure RSt where
  unames : List String
  tokens : List J
  request_sleep : Option Int
  rate_limit_used : PyVal
  rate_limit_remaining : PyVal
  rate_limit_reset : PyVal
  request_count : Nat

/-- Observable effects of `request`, in order of occurrence. -/
inductive Ev where
  | slept (v : PyVal)                    -- time.sleep(...)
  | released (unames : List String)      -- self.release_creds()
  | exitCall (code : Nat)                -- sys.exit(code)
  | httpGet (url : String) (idx : Nat)   -- requests.get; idx = request_count
deriving DecidableEq, Repr

/-- How a `request` call ends: a returned response, process termination via
`sys.exit`, or an uncaught Python exception. -/
inductive ROut where
  | ok (r : Response)
  | exited (code : Nat)
  | crashed (msg : String)

/-- `response.json()['access_token']` (ringest.py line 257): `some` when
the body is a dict containing the key, otherwise the lookup raises. -/
def accessTokenOf (r : Response) : Option J :=
  match r.body with
  | .obj fs => lookupKey fs "access_token"
  | _ => none

/-- `Ringest.fetch_tokens` (ringest.py lines 181-260).  When the token
cache is empty: build one basic-auth per identity (`password_map[u]` raises
KeyError on a missing identity, before any request), POST once per
identity, log a warning for each non-200 response, then build
`[response.json()['access_token'] for response in responses]` — which
raises if any body (even of a failed response) lacks the key.  Returns the
warning log and the token list or the raised error. -/
def fetch_tokens (password_map : String → Option String)
    (responses : List Response) (unames : List String) (tokens : List J) :
    List String × Except String (List J) :=
  if tokens.length < 1 then
    match unames.mapM password_map with
    | none => ([], .error "KeyError")
    | some _ =>
      let warnings := (responses.filter (fun r => r.status != 200)).map
        (fun _ => "Token request failed")
      match responses.mapM accessTokenOf with
      | some toks => (warnings, .ok toks)
      | none => (warnings, .error "KeyError")
  else ([], .ok tokens)

/-- Result of one attempt of `request`: `.done` ends the call (response
returned, process exited, or crash); `.nonOk` is a non-200, non-414
response, on which `request` itself decides between retrying
(`retries_left > 0`: sleep 10 and recurse) and returning the response. -/
inductive StepRes where
  | done (s : RSt) (evs : List Ev) (out : ROut)
  | nonOk (s : RSt) (evs : List Ev) (resp : Response)

/-- The straight-line tail of one `request` attempt (ringest.py lines
279-302), entered after the rate-limit wait with the events so far in
`evs`: fetch/reuse tokens, pick `tokens[request_count % len(tokens)]`
(ZeroDivisionError on an empty list, TypeError when concatenating a
non-str token), apply the inter-request sleep, issue the GET, update the
rate state from the response headers (header string when present, int
default when absent), then dispatch: HTTP 414 releases all leases and
exits with status 1, any other non-200 is handed back to `request`. -/
def requestStep2 (password_map : String → Option String)
    (tokenResps : List Response) (o : Nat → Response) (url : String)
    (s1 : RSt) (evs : List Ev) : StepRes :=
  match fetch_tokens password_map tokenResps s1.unames s1.tokens with
  | (_, .error e) => .done s1 evs (.crashed e)
  | (_, .ok toks) =>
    let s2 : RSt := { s1 with tokens := toks }
    if toks.length = 0 then .done s2 evs (.crashed "ZeroDivisionError")
    else
      match toks.getD (s2.request_count % toks.length) .null with
      | .str _tok =>
        let evs1 := evs ++ (match s2.request_sleep with
          | some ns => if ns > 0 then [Ev.slept (.int ns)] else []
          | none => [])
        let idx := s2.request_count
        let s3 := { s2 with request_count := s2.request_count + 1 }
        let resp := o idx
        let evs2 := evs1 ++ [.httpGet url idx]
        let s4 := { s3 with
          rate_limit_used := (match lookupHeader resp.headers "X-Ratelimit-Used" with
            | some v => .str v
            | none => .int 0),
          rate_limit_remaining := (match lookupHeader resp.headers "X-Ratelimit-Remaining" with
            | some v => .str v
            | none => .int default_rate_limit_remaining),
          rate_limit_reset := (match lookupHeader resp.headers "X-Ratelimit-Reset" with
            | some v => .str v
            | none => .int default_rate_limit_reset) }
        if resp.status = 414 then
          .done s4 (evs2 ++ [.released s4.unames, .exitCall 1]) (.exited 1)
        else if resp.status ≠ 200 then
          .nonOk s4 evs2 resp
        else
          .done s4 evs2 (.ok resp)
      | _ => .done s2 evs (.crashed "TypeError")

/-- One attempt of `Ringest.request` (ringest.py lines 269-302), after the
`retries_left == 0` check: wait out the rate limit if `remaining == 0`
(`sleep` of a header string raises TypeError), then run the straight-line
tail `requestStep2`. -/
def requestOnce (password_map : String → Option String)
    (tokenResps : List Response) (o : Nat → Response) (url : String)
    (s : RSt) : StepRes :=
  if s.rate_limit_remaining.eqInt 0 then
    match s.rate_limit_reset with
    | .str _ => .done s [] (.crashed "TypeError")   -- sleep(header string)
    | .int n => requestStep2 password_map tokenResps o url s [.slept (.int n)]
  else requestStep2 password_map tokenResps o url s []

/-- `Ringest.request(url, retries_left)` (ringest.py lines 262-310): when
`retries_left == 0`, release all leases and `sys.exit(1)`; otherwise run one
attempt, and on a non-200, non-414 response with `retries_left > 0`,
`sleep(10)` and recurse with `retries_left - 1` (line 308); with no retries
left the non-200 response is returned as-is.  Result: final state,
concatenated event trace, outcome. -/
def request (password_map : String → Option String)
    (tokenResps : List Response) (o : Nat → Response) (url : String)
    (retries_left : Int) (s : RSt) : RSt × List Ev × ROut :=
  if retries_left = 0 then
    (s, [.released s.unames, .exitCall 1], .exited 1)
  else
    match requestOnce password_map tokenResps o url s with
    | .done s1 evs out => (s1, evs, out)
    | .nonOk s1 evs resp =>
      if h : retries_left > 0 then
        let (s2, evs2, out) :=
          request password_map tokenResps o url (retries_left - 1) s1
        (s2, evs ++ [.slept (.int 10)] ++ evs2, out)
      else (s1, evs, .ok resp)
termination_by retries_left.toNat
decreasing_by
  simp
  omega

/-!
## `Ringest.do_morechildren` and its id extraction
(ringest.py lines 49-51, 426-433, 541-590)
-/

/-- `Ringest.bad_ids` membership (ringest.py line 51): Python
`i in (None, '', '_', '__')` under `==`; no bool/int/list/dict equals any
of those four values. -/
def isBadId : J → Bool
  | .null => true
  | .str "" => true
  | .str "_" => true
  | .str "__" => true
  | _ => false

/-- `Ringest.get_children_from_listing(d)` (ringest.py lines 426-433):
assert `d` is a dict, its kind is `'Listing'`, `data` is present (not
`None`) and `data.children` is a list; return the children. -/
def get_children_from_listing : J → Except String (List J)
  | .obj fs =>
    match lookupKey fs "kind" with       -- d.get('kind') == 'Listing'
    | some (.str "Listing") =>
      match lookupKey fs "data" with     -- d.get('data', None) is not None
      | some (.obj ds) =>
        match lookupKey ds "children" with
        | some (.arr cs) => .ok cs       -- isinstance(children, list)
        | _ => .error "AssertionError"
      | some .null => .error "AssertionError"
      | some _ => .error "AttributeError"  -- .get('children') on a non-dict
      | none => .error "AssertionError"
    | _ => .error "AssertionError"
  | _ => .error "AssertionError"         -- assert isinstance(d, dict)

mutual

/-- `Ringest.get_child_ids_from_thing(d)` (ringest.py lines 541-563):
non-dicts yield `[]`; `kind = d['kind']` raises KeyError when absent;
`Listing` collects ids over `get_children_from_listing` (inlined here so
the recursion is visibly structural — same checks, same children); `t1`
recurses into `d.get('data', dict()).get('replies', dict())` (a defaulted
`dict()` then raises KeyError at its own `['kind']`); `more` filters
`data.get('children', [])` through `bad_ids`; other kinds yield `[]`. -/
def get_child_ids_from_thing : J → Except String (List J)
  | .obj fs =>
    match hk : lookupKey fs "kind" with
    | none => .error "KeyError"               -- kind = d['kind']
    | some (.str "Listing") =>
      match hd : lookupKey fs "data" with
      | some (.obj ds) =>
        match hc : lookupKey ds "children" with
        | some (.arr cs) => childIdsOfChildren cs
        | _ => .error "AssertionError"
      | some .null => .error "AssertionError"
      | some _ => .error "AttributeError"
      | none => .error "AssertionError"
    | some (.str "t1") =>
      match hd : lookupKey fs "data" with
      | some (.obj ds) =>
        match hr : lookupKey ds "replies" with
        | some r => get_child_ids_from_thing r
        | none => get_child_ids_from_thing (.obj [])
      | some _ => .error "AttributeError"     -- .get('replies') on a non-dict
      | none => get_child_ids_from_thing (.obj [])
    | some (.str "more") =>
      match lookupKey fs "data" with
      | some (.obj ds) =>
        -- [i for i in d.get('data', dict()).get('children', []) if i not in bad_ids]
        match lookupKey ds "children" with
        | some (.arr cs) => .ok (cs.filter (fun i => !(isBadId i)))
        | none => .ok []
        -- iterating a str yields its chars, a dict its keys
        | some (.str s) =>
          .ok ((s.toList.map (fun c => J.str (String.singleton c))).filter
            (fun i => !(isBadId i)))
        | some (.obj gs) =>
          .ok ((gs.map (fun kv => J.str kv.1)).filter (fun i => !(isBadId i)))
        | some _ => .error "TypeError"
      | some _ => .error "AttributeError"
      | none => .ok []                        -- data defaults to dict()
    | some _ => .ok []
  | _ => .ok []                               -- not isinstance(d, dict)
termination_by j => sizeOf j
decreasing_by
  all_goals first
    | (have h1 := sizeOf_lookupKey hc
       have h2 := sizeOf_lookupKey hd
       simp at h1 h2 ⊢
       try omega)
    | (have h1 := sizeOf_lookupKey hr
       have h2 := sizeOf_lookupKey hd
       simp at h1 h2 ⊢
       try omega)
    | (have h1 := sizeOf_obj_gt_two (lookupKey_ne_nil hk)
       simp at h1 ⊢
       try omega)

/-- The Listing loop of `get_child_ids_from_thing` (ringest.py lines
550-555): collect each child's ids in order; `results.extend(l)` is
guarded by `len(l) > 0`, which equals unconditional concatenation. -/
def childIdsOfChildren : List J → Except String (List J)
  | [] => .ok []
  | c :: rest => do
    let l ← get_child_ids_from_thing c
    let rest2 ← childIdsOfChildren rest
    .ok (if l.length > 0 then l ++ rest2 else rest2)
termination_by l => sizeOf l
decreasing_by
  all_goals simp; try omega

end

/-- The new-id extraction of one `do_morechildren` iteration (ringest.py
lines 582-588) for a dict response: walk
`response_j.get('json', dict()).get('data', dict()).get('things', [])`,
collecting `get_child_ids_from_thing` of each thing (the `extend` guard
equals concatenation, as in `childIdsOfChildren`). -/
def newIdsOfDict (fs : List (String × J)) : Except String (List J) :=
  match (lookupKey fs "json").getD (.obj []) with
  | .obj js =>
    match (lookupKey js "data").getD (.obj []) with
    | .obj dss =>
      match (lookupKey dss "things").getD (.arr []) with
      | .arr things => childIdsOfChildren things
      | .str s =>
        childIdsOfChildren (s.toList.map (fun c => J.str (String.singleton c)))
      | .obj gs => childIdsOfChildren (gs.map (fun kv => J.str kv.1))
      | _ => .error "TypeError"            -- iterating None/bool/int
    | _ => .error "AttributeError"         -- .get('things') on a non-dict
  | _ => .error "AttributeError"           -- .get('data') on a non-dict

/-- New ids contributed by one response: the `isinstance(response_j, dict)`
test of line 579 makes a non-dict response contribute nothing. -/
def newIdsOfResp (j : J) : Except String (List J) :=
  match j with
  | .obj fs => newIdsOfDict fs
  | _ => .ok []

/-- `Ringest.do_morechildren(link_name, child_ids)` (ringest.py lines
565-590), with the HTTP layer abstracted: `o k` is the parsed JSON body of
the `k`-th follow-up request of this call.  `fuel` bounds the number of
loop iterations (`none` = bound hit, used to state termination); `some`
carries either the raised error or the accumulated `results` together with
the requested batches (one `more_child_ids[:10]` prefix per issued request,
in order).  Loop body: while the queue is nonempty, request a batch of the
first at most 10 ids, drop them from the queue, and if the response is a
dict, append it to `results` and extend the queue with the extracted new
child ids. -/
def do_morechildren_loop (o : Nat → J) :
    Nat → List J → Nat → List J → List (List J) →
    Option (Except String (List J × List (List J)))
  | 0, _, _, _, _ => none
  | fuel + 1, queue, k, results, reqs =>
    if queue.isEmpty then some (.ok (results, reqs))
    else
      let batch := queue.take 10     -- ','.join(more_child_ids[:10]) in the url
      let resp := o k                -- self.request(url=url, ...).json()
      let rest := queue.drop 10      -- more_child_ids = more_child_ids[10:]
      match resp with
      | .obj fs =>
        match newIdsOfDict fs with
        | .ok newIds =>
          do_morechildren_loop o fuel (rest ++ newIds) (k + 1)
            (results ++ [resp]) (reqs ++ [batch])
        | .error e => some (.error e)
      | _ => do_morechildren_loop o fuel rest (k + 1) results (reqs ++ [batch])

/-- `do_morechildren` entry: the queue starts as the given `child_ids`, no
requests issued yet. -/
def do_morechildren (o : Nat → J) (child_ids : List J) (fuel : Nat) :
    Option (Except String (List J × List (List J))) :=
  do_morechildren_loop o fuel child_ids 0 [] []

/-!
## Heap-level model of `flatten_comments` for the frame claim (C9)

Claim C9 is about mutation: the value-level model above cannot express "the
input is not mutated in place", so `flatten_comments` is modelled a second
time over an explicit heap.  Lists and dicts are heap objects reached
through references (Python's object identities); `dict(child)` and the dict
comprehension allocate, `clone["data"] = ...` and
`flattened_comments.append(...)` update an object in place.  Addresses are
allocation indices; allocation appends, so an address existing before the
call keeps its index.
-/

/-- A Python value in the heap model: primitives are immediate, lists and
dicts live behind references. -/
inductive HV where
  | null
  | vbool (b : Bool)
  | vint (n : Int)
  | vstr (s : String)
  | ref (a : Nat)
deriving DecidableEq, Repr

/-- A heap object: a dict (fields in insertion order) or a list. -/
inductive HObj where
  | dict (fs : List (String × HV))
  | list (xs : List HV)
deriving DecidableEq, Repr

/-- The heap: objects indexed by allocation order. -/
structure Heap where
  objs : List HObj
deriving DecidableEq, Repr

/-- Allocation appends at the end and returns the fresh address. -/
def Heap.alloc (h : Heap) (o : HObj) : Heap × Nat :=
  ({ objs := h.objs ++ [o] }, h.objs.length)

/-- Read the object at an address. -/
def Heap.read (h : Heap) (a : Nat) : Option HObj := h.objs[a]?

/-- In-place update of the object at an address. -/
def Heap.put (h : Heap) (a : Nat) (o : HObj) : Heap :=
  { objs := h.objs.set a o }

/-- Field lookup, as `lookupKey`. -/
def lookupF : List (String × HV) → String → Option HV
  | [], _ => none
  | (k, v) :: rest, key => if k = key then some v else lookupF rest key

/-- Field update, as `setKey`: existing keys keep their position. -/
def setF : List (String × HV) → String → HV → List (String × HV)
  | [], key, v => [(key, v)]
  | (k, w) :: rest, key, v =>
      if k = key then (k, v) :: rest else (k, w) :: setF rest key v

/-- Python truthiness in the heap model: a reference is truthy iff the
referenced container is nonempty.  (Dangling references cannot arise in
Python; they are falsy here.) -/
def truthyH (h : Heap) (v : HV) : Bool :=
  match v with
  | .null => false
  | .vbool b => b
  | .vint n => n ≠ 0
  | .vstr s => ¬ s.isEmpty
  | .ref a =>
    match h.read a with
    | some (.dict fs) => ¬ fs.isEmpty
    | some (.list xs) => ¬ xs.isEmpty
    | none => false

mutual

/-- Heap-level `traverse(comment_listing)` (ringest.py lines 35-42).
`accA` is the address of the `flattened_comments` list object.  `fuel`
bounds the recursion depth (Python's recursion limit plays the same role);
every theorem about this function quantifies over `fuel`. -/
def travListingH : Nat → Nat → Heap → HV → Except String Heap
  | 0, _, _, _ => .error "RecursionError"
  | fuel + 1, accA, h, v =>
    match v with
    | .ref a =>
      match h.read a with
      | some (.dict fs) =>
        match lookupF fs "kind" with
        | none => .error "KeyError"            -- comment_listing["kind"]
        | some (.vstr "Listing") =>
          match lookupF fs "data" with
          | none => .error "KeyError"
          | some (.ref da) =>
            match h.read da with
            | some (.dict ds) =>
              match lookupF ds "children" with
              | none => .error "KeyError"
              | some (.ref ca) =>
                match h.read ca with
                | some (.list cs) => travChildrenH fuel accA h cs
                | some (.dict gs) =>           -- iterating a dict: its keys
                  if gs.isEmpty then .ok h else .error "TypeError"
                | none => .error "DanglingRef"
              | some (.vstr s) =>              -- iterating a str: its chars
                if s.isEmpty then .ok h else .error "TypeError"
              | some _ => .error "TypeError"
            | _ => .error "TypeError"
          | some _ => .error "TypeError"       -- ["children"] on a non-dict
        | some _ => .error "AssertionError"    -- assert kind == "Listing"
      | _ => .error "TypeError"
    | _ => .error "TypeError"
termination_by fuel accA h v => (fuel, 0)

/-- Heap-level child loop of `traverse` (ringest.py lines 37-42):
`clone = dict(child)` allocates; the replies-stripped data dict allocates;
`clone["data"] = ...` updates the fresh clone in place;
`flattened_comments.append(clone)` updates the accumulator list in place;
then the truthy `data.get("replies")` is traversed before the next
sibling.  The loop iterates over the snapshot taken when the listing was
entered; nothing the body mutates is a children list of the input. -/
def travChildrenH : Nat → Nat → Heap → List HV → Except String Heap
  | _, _, h, [] => .ok h
  | fuel, accA, h, child :: rest =>
    match child with
    | .ref ca =>
      match h.read ca with
      | some (.dict cfs) =>
        let h1 := (h.alloc (.dict cfs)).1           -- clone = dict(child)
        let cloneA := (h.alloc (.dict cfs)).2
        match lookupF cfs "data" with
        | none => .error "KeyError"                 -- clone["data"]
        | some (.ref da) =>
          match h1.read da with
          | some (.dict dfs) =>
            -- {k: v for (k, v) in clone["data"].items() if k != "replies"}
            let h2 := (h1.alloc (.dict (dfs.filter (fun kv => kv.1 ≠ "replies")))).1
            let ndA := (h1.alloc (.dict (dfs.filter (fun kv => kv.1 ≠ "replies")))).2
            let h3 := h2.put cloneA (.dict (setF cfs "data" (.ref ndA)))
            match h3.read accA with
            | some (.list axs) =>
              -- flattened_comments.append(clone)
              let h4 := h3.put accA (.list (axs ++ [HV.ref cloneA]))
              -- if child["data"].get("replies"):
              let rep := (lookupF dfs "replies").getD .null
              if truthyH h4 rep then do
                let h5 ← travListingH fuel accA h4 rep
                travChildrenH fuel accA h5 rest
              else travChildrenH fuel accA h4 rest
            | _ => .error "BadAccumulator"
          | _ => .error "AttributeError"            -- .items() on a non-dict
        | some _ => .error "AttributeError"
      | some (.list _) => .error "TypeError"        -- dict(child) of a list
      | none => .error "DanglingRef"
    | _ => .error "TypeError"                       -- dict(child) of non-dict
termination_by fuel accA h l => (fuel, l.length + 1)

/-- Heap-level `for cl in comments[1:]: traverse(cl)` (lines 44-45). -/
def travListingsH : Nat → Nat → Heap → List HV → Except String Heap
  | _, _, h, [] => .ok h
  | fuel, accA, h, cl :: rest => do
    let h2 ← travListingH fuel accA h cl
    travListingsH fuel accA h2 rest
termination_by fuel accA h l => (fuel, l.length + 1)

end

/-- Heap-level `flatten_comments(link_doc)` (ringest.py lines 16-47): read
`comments`, allocate the empty `flattened_comments` list, check the
post-node assertion, traverse every listing after the first, and allocate
the result `dict(link_doc, flattened_comments=...)`.  Returns the final
heap and a reference to the new document. -/
def flatten_commentsH (fuel : Nat) (h : Heap) (link_doc : HV) :
    Except String (Heap × HV) :=
  match link_doc with
  | .ref la =>
    match h.read la with
    | some (.dict lfs) =>
      match lookupF lfs "comments" with
      | none => .error "KeyError"              -- link_doc["comments"]
      | some (.ref ca) =>
        match h.read ca with
        | some (.list comments) =>
          let h1 := (h.alloc (.list [])).1     -- flattened_comments = []
          let accA := (h.alloc (.list [])).2
          match comments with
          | [] => .error "IndexError"          -- comments[0]
          | c0 :: rest =>
            match c0 with
            | .ref c0a =>
              match h1.read c0a with
              | some (.dict c0fs) =>
                match lookupF c0fs "kind" with
                | none => .error "KeyError"
                | some (.vstr "Listing") =>
                  match lookupF c0fs "data" with
                  | none => .error "KeyError"
                  | some (.ref d0a) =>
                    match h1.read d0a with
                    | some (.dict d0s) =>
                      match lookupF d0s "children" with
                      | none => .error "KeyError"
                      | some (.ref ch0a) =>
                        match h1.read ch0a with
                        | some (.list [p]) =>   -- len(children) == 1
                          match p with
                          | .ref pa =>
                            match h1.read pa with
                            | some (.dict pfs) =>
                              match lookupF pfs "kind" with
                              | none => .error "KeyError"
                              | some (.vstr "t3") => do
                                let h2 ← travListingsH fuel accA h1 rest
                                let h3 := (h2.alloc
                                  (.dict (setF lfs "flattened_comments" (.ref accA)))).1
                                let resA := (h2.alloc
                                  (.dict (setF lfs "flattened_comments" (.ref accA)))).2
                                .ok (h3, .ref resA)
                              | some _ => .error "AssertionError"
                            | _ => .error "TypeError"
                          | _ => .error "TypeError"
                        | some (.list _) => .error "AssertionError"
                        | _ => .error "AssertionError"
                      | some _ => .error "AssertionError"
                    | _ => .error "TypeError"
                  | some _ => .error "TypeError"
                | some _ => .error "AssertionError"
              | _ => .error "TypeError"
            | _ => .error "TypeError"
        | _ => .error "TypeError"
      | some _ => .error "TypeError"
    | _ => .error "TypeError"
  | _ => .error "TypeError"

/-- The body of `partition_window` after offsetting: the partition of
`[a, e)` stepping by `s` (so `partition_window st et s off = partFrom
(st + off) (et + off) s` by definition); convenient for induction on the
window length. -/
def partFrom (a e s : Int) : List (Int × Int) :=
  (pyRange a e s).map (fun i => (i, min (i + s - 1) e))

/-- C1 counterexample input: a Listing containing one leaf `t1` comment
with no top-level `replies` key; it contains no `more` node. -/
def cexC1tree : J :=
  .obj [("kind", .str "Listing"),
        ("data", .obj [("children", .arr
          [.obj [("kind", .str "t1"), ("data", .obj [("id", .str "c1")])]])])]

/-- What `populate_thing` returns on `cexC1tree`: the leaf comment has
gained a top-level `replies = dict()` field. -/
def cexC1populated : J :=
  .obj [("kind", .str "Listing"),
        ("data", .obj [("children", .arr
          [.obj [("kind", .str "t1"), ("data", .obj [("id", .str "c1")]),
                 ("replies", .obj [])]])])]

/-- Concrete C6 document components: post `p`, comment `c1` with reply
`r1`, comment `c2`. -/
def c6_pfs : List (String × J) :=
  [("kind", .str "t3"), ("data", .obj [("id", .str "p")])]

def c6_d0s : List (String × J) := [("children", .arr [.obj c6_pfs])]

def c6_l0fs : List (String × J) :=
  [("kind", .str "Listing"), ("data", .obj c6_d0s)]

def c6_r1ds : List (String × J) := [("id", .str "r1")]

def c6_r1fs : List (String × J) :=
  [("kind", .str "t1"), ("data", .obj c6_r1ds)]

def c6_rlds : List (String × J) := [("children", .arr [.obj c6_r1fs])]

def c6_rlfs : List (String × J) :=
  [("kind", .str "Listing"), ("data", .obj c6_rlds)]

def c6_c1ds : List (String × J) :=
  [("id", .str "c1"), ("replies", .obj c6_rlfs)]

def c6_c1fs : List (String × J) :=
  [("kind", .str "t1"), ("data", .obj c6_c1ds)]

def c6_c2ds : List (String × J) := [("id", .str "c2")]

def c6_c2fs : List (String × J) :=
  [("kind", .str "t1"), ("data", .obj c6_c2ds)]

def c6_l1ds : List (String × J) :=
  [("children", .arr [.obj c6_c1fs, .obj c6_c2fs])]

def c6_l1fs : List (String × J) :=
  [("kind", .str "Listing"), ("data", .obj c6_l1ds)]

def c6_lfs : List (String × J) :=
  [("link", .str "L"), ("comments", .arr [.obj c6_l0fs, .obj c6_l1fs])]

/-- The frame property over heaps: every address below `n` (the
pre-existing part of the heap) reads the same object, and the heap only
grows. -/
def heapFrame (n : Nat) (h h' : Heap) : Prop :=
  (∀ a, a < n → h'.objs[a]? = h.objs[a]?) ∧ h.objs.length ≤ h'.objs.length

/-- Concrete C9 input heap: address 0 holds the link document
`{comments: @1}`; `@1 = [@2]` is the comments list; `@2` is the post-only
Listing `{kind: "Listing", data: @3}`, `@3 = {children: @4}`, `@4 = [@5]`,
`@5 = {kind: "t3"}`. -/
def c9heap : Heap :=
  { objs := [
      .dict [("comments", .ref 1)],
      .list [.ref 2],
      .dict [("kind", .vstr "Listing"), ("data", .ref 3)],
      .dict [("children", .ref 4)],
      .list [.ref 5],
      .dict [("kind", .vstr "t3")] ] }

/-- The heap after `flatten_commentsH` on `c9heap`: the six input objects
unchanged, plus the fresh accumulator `@6 = []` and the fresh result
document `@7`. -/
def c9heap2 : Heap :=
  { objs := c9heap.objs ++ [.list [],
      .dict [("comments", .ref 1), ("flattened_comments", .ref 6)]] }

/-!
# Theorems

Helper lemmas first, then one theorem (plus witness or counterexample) per
claim C1-C10.
-/

theorem partition_window_eq_partFrom (st et s off : Int) :
    partition_window st et s off = partFrom (st + off) (et + off) s := rfl

/-- Unfolding law of `pyRange` for a positive step. -/
theorem pyRange_eq (a b s : Int) (hs : 0 < s) :
    pyRange a b s = if a < b then a :: pyRange (a + s) b s else [] := by
  by_cases hab : a < b
  · simp only [if_pos hab]
    unfold pyRange
    have hd1 : b - a + s - 1 = (b - (a + s) + s - 1) + 1 * s := by ring
    have hge : (0 : Int) ≤ b - (a + s) + s - 1 := by omega
    have hstep : (b - a + s - 1) / s = (b - (a + s) + s - 1) / s + 1 := by
      rw [hd1, Int.add_mul_ediv_right _ _ (by omega : s ≠ 0)]
    have hnn : 0 ≤ (b - (a + s) + s - 1) / s := Int.ediv_nonneg hge (by omega)
    rw [hstep, Int.toNat_add hnn (by omega)]
    simp only [Int.toNat_one]
    rw [List.range_succ_eq_map]
    simp only [List.map_cons, List.map_map]
    refine congrArg₂ List.cons ?_ ?_
    · push_cast; ring
    · apply List.map_congr_left
      intro k hk
      simp only [Function.comp_apply, Nat.succ_eq_add_one]
      push_cast
      ring
  · simp only [if_neg hab]
    unfold pyRange
    have : b - a + s - 1 < 1 * s := by omega
    have hlt : (b - a + s - 1) / s < 1 := by
      rw [Int.ediv_lt_iff_lt_mul hs]
      omega
    have : ((b - a + s - 1) / s).toNat = 0 := by omega
    simp [this]

/-- Unfolding law of `partFrom` for a positive step. -/
theorem partFrom_eq (a e s : Int) (hs : 0 < s) :
    partFrom a e s =
      if a < e then (a, min (a + s - 1) e) :: partFrom (a + s) e s else [] := by
  unfold partFrom
  rw [pyRange_eq a e s hs]
  by_cases hae : a < e <;> simp [hae]

theorem partFrom_mem (a e s : Int) (hs : 0 < s) :
    ∀ p ∈ partFrom a e s, a ≤ p.1 ∧ p.1 ≤ p.2 ∧ p.2 ≤ e ∧
      p.2 = min (p.1 + s - 1) e := by
  have hmeas : ∀ n : Nat, ∀ a : Int, (e - a).toNat ≤ n →
      ∀ p ∈ partFrom a e s, a ≤ p.1 ∧ p.1 ≤ p.2 ∧ p.2 ≤ e ∧
        p.2 = min (p.1 + s - 1) e := by
    intro n
    induction n with
    | zero =>
      intro a ha p hp
      rw [partFrom_eq a e s hs] at hp
      have : ¬ a < e := by omega
      simp [this] at hp
    | succ n ih =>
      intro a ha p hp
      rw [partFrom_eq a e s hs] at hp
      by_cases hae : a < e
      · simp only [if_pos hae, List.mem_cons] at hp
        rcases hp with rfl | hp
        · refine ⟨le_refl _, ?_, ?_, rfl⟩
          all_goals (simp; try omega)
        · have := ih (a + s) (by omega) p hp
          exact ⟨by omega, this.2⟩
      · simp [hae] at hp
  exact hmeas (e - a).toNat a (le_refl _)

theorem partFrom_covers (a e s : Int) (hs : 0 < s) :
    ∀ x, a ≤ x → x < e → coveredBy (partFrom a e s) x := by
  have hmeas : ∀ n : Nat, ∀ a : Int, (e - a).toNat ≤ n →
      ∀ x, a ≤ x → x < e → coveredBy (partFrom a e s) x := by
    intro n
    induction n with
    | zero => intro a ha x hax hxe; omega
    | succ n ih =>
      intro a ha x hax hxe
      rw [partFrom_eq a e s hs]
      have hae : a < e := by omega
      simp only [if_pos hae]
      by_cases hx : x ≤ a + s - 1
      · exact ⟨(a, min (a + s - 1) e), List.mem_cons_self _ _,
          hax, le_min hx (by omega)⟩
      · have hcov := ih (a + s) (by omega) x (by omega) hxe
        obtain ⟨p, hp, h1, h2⟩ := hcov
        exact ⟨p, List.mem_cons_of_mem _ hp, h1, h2⟩
  exact hmeas (e - a).toNat a (le_refl _)

theorem partFrom_pairwise (a e s : Int) (hs : 0 < s) :
    (partFrom a e s).Pairwise (fun p q => p.2 < q.1) := by
  have hmeas : ∀ n : Nat, ∀ a : Int, (e - a).toNat ≤ n →
      (partFrom a e s).Pairwise (fun p q => p.2 < q.1) := by
    intro n
    induction n with
    | zero =>
      intro a ha
      rw [partFrom_eq a e s hs]
      have : ¬ a < e := by omega
      simp [this]
    | succ n ih =>
      intro a ha
      rw [partFrom_eq a e s hs]
      by_cases hae : a < e
      · simp only [if_pos hae]
        refine List.Pairwise.cons ?_ (ih (a + s) (by omega))
        intro q hq
        have := partFrom_mem (a + s) e s hs q hq
        simp only []
        omega
      · simp [hae]
  exact hmeas (e - a).toNat a (le_refl _)

theorem partFrom_covers_end (a e s : Int) (hs : 0 < s) (hae : a < e) :
    coveredBy (partFrom a e s) e ↔ ¬ (s ∣ (e - a)) := by
  have hmeas : ∀ n : Nat, ∀ a : Int, (e - a).toNat ≤ n → a < e →
      (coveredBy (partFrom a e s) e ↔ ¬ (s ∣ (e - a))) := by
    intro n
    induction n with
    | zero => intro a ha hae; omega
    | succ n ih =>
      intro a ha hae
      rw [partFrom_eq a e s hs]
      simp only [if_pos hae]
      by_cases hlast : e ≤ a + s
      · -- final interval: pyRange (a+s) e s is empty
        have hrest : partFrom (a + s) e s = [] := by
          rw [partFrom_eq (a + s) e s hs]
          have : ¬ a + s < e := by omega
          simp [this]
        rw [hrest]
        constructor
        · rintro ⟨p, hp, h1, h2⟩
          simp only [List.mem_cons, List.not_mem_nil, or_false] at hp
          subst hp
          simp only [] at h1 h2
          intro hdvd
          rcases hdvd with ⟨c, hc⟩
          have hc1 : 1 ≤ c := by nlinarith
          have : s * 1 ≤ s * c := by
            apply mul_le_mul_of_nonneg_left hc1 (by omega)
          omega
        · intro hnd
          refine ⟨(a, min (a + s - 1) e), List.mem_cons_self _ _, by omega, ?_⟩
          simp only []
          rcases lt_or_eq_of_le (by omega : e - a ≤ s) with hlt | heq
          · omega
          · exact absurd ⟨1, by omega⟩ hnd
      · have hrec := ih (a + s) (by omega) (by omega)
        have hdvd : (s ∣ (e - (a + s))) ↔ (s ∣ (e - a)) := by
          constructor
          · rintro ⟨c, hc⟩; exact ⟨c + 1, by linarith⟩
          · rintro ⟨c, hc⟩; exact ⟨c - 1, by linarith⟩
        constructor
        · rintro ⟨p, hp, h1, h2⟩
          simp only [List.mem_cons] at hp
          rcases hp with rfl | hp
          · simp only [] at h1 h2; omega
          · intro hd
            exact (hrec.mp ⟨p, hp, h1, h2⟩) (hdvd.mpr hd)
        · intro hnd
          have := hrec.mpr (fun hx => hnd (hdvd.mp hx))
          obtain ⟨p, hp, h1, h2⟩ := this
          exact ⟨p, List.mem_cons_of_mem _ hp, h1, h2⟩
  exact hmeas (e - a).toNat a (le_refl _) hae

theorem partFrom_get (a e s : Int) (i : Nat)
    (hi : i < (partFrom a e s).length) :
    (partFrom a e s).get ⟨i, hi⟩ =
      (a + s * i, min (a + s * i + s - 1) e) := by
  unfold partFrom pyRange at hi ⊢
  simp only [List.get_eq_getElem, List.getElem_map, List.getElem_range,
    List.length_map, List.length_range] at hi ⊢

/-- Claim C3 (amended): for `start < end` and `part_size_seconds > 0` the
returned intervals are ordered and disjoint, the `i`-th starts at
`start + offset + i * part_size_seconds` and ends at the clamp
`min(start + part - 1, end + offset)`, their union covers every point of
`[start+offset, end+offset)` with no gaps, every covered point lies in
`[start+offset, end+offset]`, and the extra point `end+offset` is covered
exactly when `part_size_seconds` does not divide `end - start` (so the
union is exactly `[start+offset, end+offset)` only in the dividing case —
the correction forced by the counterexample). -/
theorem partition_window_partitions (start_ts end_ts s off : Int)
    (hlt : start_ts < end_ts) (hs : 0 < s) :
    partition_window start_ts end_ts s off ≠ [] ∧
    (∀ i, ∀ hi : i < (partition_window start_ts end_ts s off).length,
      (partition_window start_ts end_ts s off).get ⟨i, hi⟩ =
        (start_ts + off + s * i,
         min (start_ts + off + s * i + s - 1) (end_ts + off))) ∧
    (∀ x, start_ts + off ≤ x → x < end_ts + off →
      coveredBy (partition_window start_ts end_ts s off) x) ∧
    (∀ x, coveredBy (partition_window start_ts end_ts s off) x →
      start_ts + off ≤ x ∧ x ≤ end_ts + off) ∧
    (partition_window start_ts end_ts s off).Pairwise
      (fun p q => p.2 < q.1) ∧
    (coveredBy (partition_window start_ts end_ts s off) (end_ts + off) ↔
      ¬ (s ∣ (end_ts - start_ts))) := by
  rw [partition_window_eq_partFrom]
  set a := start_ts + off with ha
  set e := end_ts + off with he
  have hae : a < e := by omega
  refine ⟨?_, ?_, ?_, ?_, ?_, ?_⟩
  · intro hnil
    have := partFrom_covers a e s hs a (le_refl _) hae
    rw [hnil] at this
    obtain ⟨p, hp, _, _⟩ := this
    simp at hp
  · intro i hi
    exact partFrom_get a e s i hi
  · exact partFrom_covers a e s hs
  · rintro x ⟨p, hp, h1, h2⟩
    have := partFrom_mem a e s hs p hp
    omega
  · exact partFrom_pairwise a e s hs
  · have : e - a = end_ts - start_ts := by omega
    rw [← this]
    exact partFrom_covers_end a e s hs hae

/-- Claim C3, counterexample to the claim as stated: for
`start = 0, end = 10, part_size_seconds = 4, offset = 0` the union of the
returned intervals contains the point `10 = end + offset`, which is not in
`[start+offset, end+offset) = [0, 10)` — so the union does not cover
`[start+offset, end+offset)` exactly. -/
theorem partition_window_cex :
    partition_window 0 10 4 0 = [(0, 3), (4, 7), (8, 10)] ∧
    coveredBy (partition_window 0 10 4 0) 10 ∧
    ¬ ((0 : Int) ≤ 10 ∧ (10 : Int) < 10) := by
  refine ⟨by decide, by decide, by decide⟩

/-- Witness for the amended C3 theorem at `start = 0, end = 10, part = 4,
offset = 0`: the point 9 of `[0, 10)` is covered, and the point 10 is
covered because 4 does not divide 10. -/
theorem partition_window_partitions_witness :
    coveredBy (partition_window 0 10 4 0) 9 ∧
    coveredBy (partition_window 0 10 4 0) 10 :=
  ⟨(partition_window_partitions 0 10 4 0 (by decide) (by decide)).2.2.1 9
      (by decide) (by decide),
   (partition_window_partitions 0 10 4 0 (by decide) (by decide)).2.2.2.2.2.mpr
      (by decide)⟩

/-- Every uname returned by the claiming UPDATE has, in the updated table,
a reddit row carrying the reservation expiry as its `available`. -/
theorem lockQuery_mem (db : AuthDB) (now avail : Int) :
    ∀ u ∈ (lockQuery db now avail).2, ∃ r ∈ (lockQuery db now avail).1,
      r.uname = u ∧ r.platform = "reddit" ∧ r.available = avail := by
  intro u hu
  simp only [lockQuery, List.mem_map] at hu
  obtain ⟨r, hr, rfl⟩ := hu
  rw [List.mem_filter] at hr
  obtain ⟨hrdb, hcl⟩ := hr
  have hplat : r.platform = "reddit" ∧ r.available < now := by
    simpa [claimable] using hcl
  refine ⟨{ r with available := avail }, ?_, rfl, hplat.1, rfl⟩
  simp only [lockQuery, List.mem_map]
  exact ⟨r, hrdb, by simp [hcl]⟩

/-- `lock_loop` invariant: a successful return holds exactly `count`
identities, provided it starts holding at most `count` (the loop exits only
when at least `count` are held, and the surplus branch truncates to
`count`). -/
theorem lock_loop_ok_length (count : Nat) (res : Int) :
    ∀ remaining unames (db : AuthDB) (t : Int) trace us db2 t2 tr,
      unames.length ≤ count →
      lock_loop count res remaining unames db t trace = (.ok us, db2, t2, tr) →
      us.length = count := by
  intro remaining
  induction remaining with
  | zero =>
    intro unames db t trace us db2 t2 tr hle h
    rw [lock_loop] at h
    by_cases hlt : unames.length < count
    · simp [hlt] at h
    · rw [if_neg hlt] at h
      have husp : unames = us := by
        have := congrArg (fun p => p.1) h
        simpa using this
      subst husp
      omega
  | succ r ih =>
    intro unames db t trace us db2 t2 tr hle h
    rw [lock_loop] at h
    by_cases hlt : unames.length < count
    · simp only [if_pos hlt] at h
      by_cases hsur :
          ((lockQuery ((release_creds unames db (t + 1)).1)
            ((release_creds unames db (t + 1)).2 + 1)
            ((release_creds unames db (t + 1)).2 + 1 + res)).2).length > count
      · simp only [hsur, if_pos] at h
        refine ih _ _ _ _ _ _ _ _ ?_ h
        simp
      · simp only [hsur, if_neg, if_false] at h
        refine ih _ _ _ _ _ _ _ _ ?_ h
        omega
    · rw [if_neg hlt] at h
      have husp : unames = us := by
        have := congrArg (fun p => p.1) h
        simpa using this
      subst husp
      omega

/-- `lock_loop` failure shape: the error is always the ConnectionError
message, and either the budget was already 0 on entry (nothing changed), or
the trace ends with the final attempt's claim `(B, t2)` — claimed at the
final clock value `t2`, still fewer than `count` — and every identity of
`B` has, in the returned table, a reddit row whose `available` equals
`t2 + res`: the rows claimed by the final attempt are NOT released on the
failure path. -/
theorem lock_loop_error_shape (count : Nat) (res : Int) :
    ∀ remaining unames (db : AuthDB) (t : Int) trace e db2 t2 tr,
      lock_loop count res remaining unames db t trace =
        (.error e, db2, t2, tr) →
      e = "Unable to reserve credentials." ∧
      ((tr = trace ∧ db2 = db ∧ t2 = t ∧ remaining = 0 ∧
          unames.length < count) ∨
       (∃ B, tr.getLast? = some (B, t2) ∧ B.length < count ∧
         ∀ u ∈ B, ∃ r ∈ db2, r.uname = u ∧ r.platform = "reddit" ∧
           r.available = t2 + res)) := by
  intro remaining
  induction remaining with
  | zero =>
    intro unames db t trace e db2 t2 tr h
    rw [lock_loop] at h
    by_cases hlt : unames.length < count
    · rw [if_pos hlt] at h
      simp only [Prod.mk.injEq, Except.error.injEq] at h
      obtain ⟨h1, h2, h3, h4⟩ := h
      exact ⟨h1.symm, Or.inl ⟨h4.symm, h2.symm, h3.symm, rfl, hlt⟩⟩
    · rw [if_neg hlt] at h
      simp at h
  | succ r ih =>
    intro unames db t trace e db2 t2 tr h
    rw [lock_loop] at h
    by_cases hlt : unames.length < count
    · rw [if_pos hlt] at h
      simp only [] at h
      by_cases hsur :
          ((lockQuery ((release_creds unames db (t + 1)).1)
            ((release_creds unames db (t + 1)).2 + 1)
            ((release_creds unames db (t + 1)).2 + 1 + res)).2).length >
            count
      · rw [if_pos hsur] at h
        rw [lock_loop.eq_def] at h
        simp only [] at h
        have hlen : ¬ (((lockQuery ((release_creds unames db (t + 1)).1)
            ((release_creds unames db (t + 1)).2 + 1)
            ((release_creds unames db (t + 1)).2 + 1 + res)).2).take
              count).length < count := by
          simp
          omega
        rw [if_neg hlen] at h
        simp at h
      · rw [if_neg hsur] at h
        obtain ⟨he, hcase⟩ := ih _ _ _ _ _ _ _ _ h
        refine ⟨he, Or.inr ?_⟩
        rcases hcase with ⟨htr, hdb, ht2, hr0, hlen⟩ | ⟨B, hB, hBlen, hBmem⟩
        · refine ⟨(lockQuery ((release_creds unames db (t + 1)).1)
            ((release_creds unames db (t + 1)).2 + 1)
            ((release_creds unames db (t + 1)).2 + 1 + res)).2, ?_, hlen, ?_⟩
          · rw [htr, List.getLast?_concat, ht2]
          · intro u hu
            have := lockQuery_mem ((release_creds unames db (t + 1)).1)
              ((release_creds unames db (t + 1)).2 + 1)
              ((release_creds unames db (t + 1)).2 + 1 + res) u hu
            obtain ⟨rrow, hrmem, hrn, hrp, hra⟩ := this
            refine ⟨rrow, ?_, hrn, hrp, ?_⟩
            · rw [hdb]; exact hrmem
            · rw [ht2]; omega
        · exact ⟨B, hB, hBlen, hBmem⟩
    · rw [if_neg hlt] at h
      simp at h

/-- Claim C2, counterexample to the claim as stated: pool of one available
identity, `count = 2`, 10-minute reservation, starting clock 100.  Both
attempts claim `u1` and fail to reach 2; the run fails with the
ConnectionError, but `u1` is left with `available = 705 = 105 + 600` —
claimed until lease expiry, not released (`105` is the clock at failure). -/
theorem lock_creds_cex :
    lock_creds 2 0 10 [⟨"reddit", "u1", 0⟩] 100 =
      (.error "Unable to reserve credentials.",
       [⟨"reddit", "u1", 705⟩], 105, [(["u1"], 102), (["u1"], 105)]) ∧
    (105 : Int) < 705 := by
  constructor
  · rfl
  · decide

/-- Claim C2 (amended): when `lock_creds` cannot claim `count` identities
within its 2-attempt budget it fails with the lease-exhausted
ConnectionError; rows claimed by an earlier attempt are released at the
start of the next one, but the rows claimed by the final attempt — the last
trace entry `(B, t2)`, claimed at the final clock `t2` — remain reserved
after the failure: each has `available = t2 + reservation > t2`.  Nothing
is released on the failure path itself. -/
theorem lock_creds_exhaustion (count : Nat) (rh rm : Int) (db : AuthDB)
    (t : Int) (hres : 0 < rh * 3600 + rm * 60) (e : String) (db2 : AuthDB)
    (t2 : Int) (tr : List (List String × Int))
    (h : lock_creds count rh rm db t = (.error e, db2, t2, tr)) :
    e = "Unable to reserve credentials." ∧
    ∃ B, tr.getLast? = some (B, t2) ∧ B.length < count ∧
      ∀ u ∈ B, ∃ r ∈ db2, r.uname = u ∧ r.platform = "reddit" ∧
        r.available = t2 + (rh * 3600 + rm * 60) ∧ t2 < r.available := by
  simp only [lock_creds] at h
  obtain ⟨he, hcase⟩ :=
    lock_loop_error_shape count (rh * 3600 + rm * 60) 2 [] db t [] e db2 t2 tr h
  rcases hcase with ⟨-, -, -, h20, -⟩ | ⟨B, hB, hBlen, hBmem⟩
  · exact absurd h20 (by simp)
  · refine ⟨he, B, hB, hBlen, ?_⟩
    intro u hu
    obtain ⟨r, hr, h1, h2, h3⟩ := hBmem u hu
    exact ⟨r, hr, h1, h2, h3, by omega⟩

/-- Witness for the amended C2 theorem at the concrete failing pool: the
final attempt claimed `B` at time 105 and `u1`'s row still carries
`available = 105 + 600` after the failure. -/
theorem lock_creds_exhaustion_witness :
    ∃ B, ([(["u1"], 102), (["u1"], 105)] :
        List (List String × Int)).getLast? = some (B, 105) ∧
      B.length < 2 ∧
      ∀ u ∈ B, ∃ r ∈ ([⟨"reddit", "u1", 705⟩] : AuthDB), r.uname = u ∧
        r.platform = "reddit" ∧ r.available = 105 + ((0 : Int) * 3600 + 10 * 60) ∧
        (105 : Int) < r.available :=
  (lock_creds_exhaustion 2 0 10 [⟨"reddit", "u1", 0⟩] 100 (by decide)
    "Unable to reserve credentials." [⟨"reddit", "u1", 705⟩] 105
    [(["u1"], 102), (["u1"], 105)] (by constructor)).2

/-- Claim C10: whenever `lock_creds` returns without raising, it returns
exactly `count` identities — the loop only exits successfully holding at
least `count`, and the surplus branch releases the extras and truncates the
result to the first `count`. -/
theorem lock_creds_ok_exact_count (count : Nat) (rh rm : Int) (db : AuthDB)
    (t : Int) (us : List String) (db2 : AuthDB) (t2 : Int)
    (tr : List (List String × Int))
    (h : lock_creds count rh rm db t = (.ok us, db2, t2, tr)) :
    us.length = count := by
  simp only [lock_creds] at h
  exact lock_loop_ok_length count _ 2 [] db t [] us db2 t2 tr (by simp) h

/-- Witness for C10: a pool with two available identities and `count = 2`
succeeds on the first attempt and returns exactly both of them. -/
theorem lock_creds_ok_exact_count_witness :
    (["u1", "u2"] : List String).length = 2 :=
  lock_creds_ok_exact_count 2 0 10
    [⟨"reddit", "u1", 0⟩, ⟨"reddit", "u2", 0⟩] 100 ["u1", "u2"]
    [⟨"reddit", "u1", 702⟩, ⟨"reddit", "u2", 702⟩] 102
    [(["u1", "u2"], 102)] (by constructor)

theorem mapM_option_isSome {α β : Type} (g : α → Option β) :
    ∀ l : List α, (∀ x ∈ l, (g x).isSome) →
      ∃ ys, l.mapM g = some ys ∧ ys.length = l.length := by
  intro l
  induction l with
  | nil => intro _; exact ⟨[], rfl, rfl⟩
  | cons x rest ih =>
    intro hall
    obtain ⟨y, hy⟩ := Option.isSome_iff_exists.mp
      (hall x (List.mem_cons_self _ _))
    obtain ⟨ys, hys, hlen⟩ := ih (fun z hz => hall z (List.mem_cons_of_mem _ hz))
    refine ⟨y :: ys, ?_, by simp [hlen]⟩
    rw [List.mapM_cons, hy, hys]
    rfl

theorem mapM_option_eq_none {α β : Type} (g : α → Option β) :
    ∀ l : List α, (∃ x ∈ l, g x = none) → l.mapM g = none := by
  intro l
  induction l with
  | nil => rintro ⟨x, hx, -⟩; simp at hx
  | cons x rest ih =>
    rintro ⟨z, hz, hznone⟩
    rw [List.mapM_cons]
    rcases List.mem_cons.mp hz with rfl | hz
    · rw [hznone]; rfl
    · cases hgx : g x
      · rfl
      · rw [ih ⟨z, hz, hznone⟩]; rfl

/-- Claim C4 (amended): with an empty token cache and every leased identity
present in the secret table, `fetch_tokens` logs exactly one warning per
non-200 token response; it returns normally — with one token per identity,
never a shorter list — precisely when every response body (including those
of failed requests) still contains an `access_token` key, and otherwise the
final list comprehension raises a lookup error, so a failed token fetch
surfaces immediately rather than as a later HTTP failure. -/
theorem fetch_tokens_failure_behavior (pm : String → Option String)
    (responses : List Response) (unames : List String)
    (hpm : ∀ u ∈ unames, (pm u).isSome) :
    (fetch_tokens pm responses unames []).1.length =
      (responses.filter (fun r => r.status != 200)).length ∧
    ((∀ r ∈ responses, (accessTokenOf r).isSome) →
      ∃ toks, (fetch_tokens pm responses unames []).2 = .ok toks ∧
        toks.length = responses.length) ∧
    ((∃ r ∈ responses, accessTokenOf r = none) →
      (fetch_tokens pm responses unames []).2 = .error "KeyError") := by
  obtain ⟨auths, hauths, -⟩ := mapM_option_isSome pm unames hpm
  refine ⟨?_, ?_, ?_⟩
  · simp only [fetch_tokens, List.length_nil, if_pos (by omega : (0:Nat) < 1),
      hauths]
    cases hmap : responses.mapM accessTokenOf <;> simp
  · intro hall
    obtain ⟨toks, htoks, hlen⟩ := mapM_option_isSome accessTokenOf responses hall
    refine ⟨toks, ?_, hlen⟩
    simp only [fetch_tokens, List.length_nil, if_pos (by omega : (0:Nat) < 1),
      hauths, htoks]
  · intro hnone
    have := mapM_option_eq_none accessTokenOf responses hnone
    simp only [fetch_tokens, List.length_nil, if_pos (by omega : (0:Nat) < 1),
      hauths, this]

/-- Claim C4, counterexample to the claim as stated: one identity whose
token POST comes back 401 with a body lacking `access_token`.
`fetch_tokens` does log the failure, but then raises (KeyError at
`response.json()['access_token']`) instead of returning normally. -/
theorem fetch_tokens_cex :
    fetch_tokens (fun _ => some "secret")
      [⟨401, [], .obj [("message", .str "Unauthorized"), ("error", .num 401)]⟩]
      ["iu0aBcDeFgHiJk"] [] =
      (["Token request failed"], .error "KeyError") := rfl

/-- Witness for the amended C4 theorem: two identities, one 200 response
with a token and one 401 response that still carries an `access_token`
key — one warning is logged and both tokens come back. -/
theorem fetch_tokens_failure_behavior_witness :
    (fetch_tokens (fun _ => some "secret")
      [⟨200, [], .obj [("access_token", .str "tokA")]⟩,
       ⟨401, [], .obj [("access_token", .str "tokB")]⟩]
      ["iu0aBcDeFgHiJk", "iu1LmNoPqRsTuv"] []).1.length =
      (([⟨200, [], .obj [("access_token", .str "tokA")]⟩,
        ⟨401, [], .obj [("access_token", .str "tokB")]⟩] : List Response).filter
          (fun r => r.status != 200)).length ∧
    ∃ toks, (fetch_tokens (fun _ => some "secret")
      [⟨200, [], .obj [("access_token", .str "tokA")]⟩,
       ⟨401, [], .obj [("access_token", .str "tokB")]⟩]
      ["iu0aBcDeFgHiJk", "iu1LmNoPqRsTuv"] []).2 = .ok toks ∧
      toks.length = 2 := by
  have h := fetch_tokens_failure_behavior (fun _ => some "secret")
    [⟨200, [], .obj [("access_token", .str "tokA")]⟩,
     ⟨401, [], .obj [("access_token", .str "tokB")]⟩]
    ["iu0aBcDeFgHiJk", "iu1LmNoPqRsTuv"] (by intro u hu; rfl)
  exact ⟨h.1, h.2.1 (by intro r hr; fin_cases hr <;> rfl)⟩

theorem setKey_self {fs : List (String × J)} {k : String} {v : J}
    (h : lookupKey fs k = some v) : setKey fs k v = fs := by
  induction fs with
  | nil => simp [lookupKey] at h
  | cons hd tl ih =>
    obtain ⟨a, b⟩ := hd
    rw [lookupKey] at h
    rw [setKey]
    by_cases hk : a = k
    · simp [hk] at h ⊢
      exact h.symm
    · simp [hk] at h ⊢
      exact ih h

theorem wfNoMoreList_mem : ∀ {cs : List J}, wfNoMoreList cs = true →
    ∀ c ∈ cs, wfNoMore c = true := by
  intro cs
  induction cs with
  | nil => intro _ c hc; simp at hc
  | cons x rest ih =>
    intro h c hc
    rw [wfNoMoreList] at h
    simp only [Bool.and_eq_true] at h
    rcases List.mem_cons.mp hc with rfl | hc
    · exact h.1
    · exact ih h.2 c hc

theorem populateChildren_id (more : String → List J → List J) (ln : String) :
    ∀ cs : List J, (∀ c ∈ cs, populate_thing more ln c = .ok c) →
      populateChildren more ln cs = .ok cs := by
  intro cs
  induction cs with
  | nil => intro _; rw [populateChildren]
  | cons c rest ih =>
    intro hall
    rw [populateChildren]
    rw [hall c (List.mem_cons_self _ _),
      ih (fun z hz => hall z (List.mem_cons_of_mem _ hz))]
    rfl

/-- Claim C1 (amended): for every well-formed tree containing no
`"more"`-kind node in which every `"t1"` comment node carries a top-level
`"replies"` field (the `wfNoMore` predicate), `populate_thing` is the
identity, whatever the `do_morechildren` oracle — expansion is a no-op on
fully materialized trees of this shape.  (The counterexample forces the
extra `replies`-field condition: a leaf comment without one gains
`replies = dict()`.) -/
theorem populate_thing_noop (more : String → List J → List J) (ln : String) :
    ∀ d : J, wfNoMore d = true → populate_thing more ln d = .ok d := by
  suffices h : ∀ n : Nat, ∀ d : J, sizeOf d ≤ n → wfNoMore d = true →
      populate_thing more ln d = .ok d by
    intro d
    exact h (sizeOf d) d (le_refl _)
  intro n
  induction n with
  | zero =>
    intro d hsz
    exfalso
    cases d <;> simp at hsz
  | succ n ih =>
    intro d hsz hwf
    rw [wfNoMore.eq_def] at hwf
    split at hwf
    case h_2 => simp at hwf
    case h_1 fs =>
      split at hwf
      -- kind = "Listing"
      case h_1 heqk =>
        split at hwf
        -- data is a dict
        case h_1 ds heqd =>
          split at hwf
          -- children is a list
          case h_1 cs heqc =>
            have hall : ∀ c ∈ cs, populate_thing more ln c = .ok c := by
              intro c hc
              refine ih c ?_ (wfNoMoreList_mem hwf c hc)
              have h1 := sizeOf_lookupKey heqc
              have h2 := sizeOf_lookupKey heqd
              have h3 := List.sizeOf_lt_of_mem hc
              simp at hsz h1 h2
              omega
            rw [populate_thing.eq_def]
            split
            all_goals try (exfalso; simp_all; done)
            rename_i fs2 hfs
            injection hfs with hfs
            subst hfs
            split
            all_goals try (exfalso; simp_all; done)
            split
            all_goals try (exfalso; simp_all; done)
            rename_i ds2 heq2
            rw [heqd] at heq2
            injection heq2 with heq2
            injection heq2 with heq2
            subst heq2
            split
            all_goals try (exfalso; simp_all; done)
            rename_i cs2 heq3
            rw [heqc] at heq3
            injection heq3 with heq3
            injection heq3 with heq3
            subst heq3
            by_cases hemp : cs.isEmpty = true
            · simp [hemp]
            · rw [if_neg hemp]
              rw [populateChildren_id more ln cs hall]
              simp only [bind, Except.bind]
              rw [setKey_self heqc, setKey_self heqd]
          -- children key absent
          case h_2 heqc =>
            rw [populate_thing.eq_def]
            split
            all_goals try (exfalso; simp_all; done)
            rename_i fs2 hfs
            injection hfs with hfs
            subst hfs
            split
            all_goals try (exfalso; simp_all; done)
            split
            all_goals try (exfalso; simp_all; done)
            rename_i ds2 heq2
            rw [heqd] at heq2
            injection heq2 with heq2
            injection heq2 with heq2
            subst heq2
            split
            all_goals try (exfalso; simp_all; done)
            all_goals rfl
          -- other children values are not well formed
          case h_3 => exact absurd hwf (by simp)
        case h_2 => exact absurd hwf (by simp)
      -- kind = "t1"
      case h_2 heqk =>
        split at hwf
        case h_1 r heqr =>
          have hr : populate_thing more ln r = .ok r := by
            refine ih r ?_ hwf
            have h1 := sizeOf_lookupKey heqr
            simp at hsz
            omega
          rw [populate_thing.eq_def]
          split
          · split
            all_goals try simp_all
            -- the genuine t1 branch: replies present
            split
            · rename_i r2 heq2
              rw [heqr] at heq2
              injection heq2 with heq2
              subst heq2
              rw [hr]
              simp only [bind, Except.bind]
              rw [setKey_self heqr]
            · rename_i heq2
              rw [heqr] at heq2
              exact absurd heq2 (by simp)
          · simp_all
        case h_2 => exact absurd hwf (by simp)
      -- kind = "more": excluded
      case h_3 heqk => exact absurd hwf (by simp)
      -- any other kind passes through
      case h_4 k hne1 hne2 hne3 heqk =>
        rw [populate_thing.eq_def]
        split
        · split <;> simp_all
        · simp_all
      -- kind absent passes through
      case h_5 heqk =>
        rw [populate_thing.eq_def]
        split
        · split <;> simp_all
        · simp_all


/-- Claim C1, counterexample to the claim as stated: `cexC1tree` contains
no `"more"` node, yet `populate_thing` is not a no-op on it — the leaf
comment gains a top-level `replies = dict()` field, because the `t1` branch
reads and writes `d['replies']` unconditionally (at the top level of the
thing, not inside `data`). -/
theorem populate_thing_cex :
    containsMore cexC1tree = false ∧
    populate_thing (fun _ _ => []) "ln0" cexC1tree = .ok cexC1populated ∧
    cexC1populated ≠ cexC1tree := by
  refine ⟨?_, ?_, ?_⟩
  · simp [cexC1tree, containsMore.eq_def, containsMoreList.eq_def,
      containsMoreFields.eq_def, lookupKey]
  · simp [cexC1tree, cexC1populated, populate_thing.eq_def,
      populateChildren.eq_def, lookupKey, setKey]
    rfl
  · simp [cexC1tree, cexC1populated]

/-- Witness for the amended C1 theorem: the tree whose single comment does
carry a top-level `replies` field satisfies `wfNoMore`, and `populate_thing`
returns it unchanged. -/
theorem populate_thing_noop_witness :
    wfNoMore cexC1populated = true ∧
    populate_thing (fun _ _ => []) "ln0" cexC1populated =
      .ok cexC1populated :=
  ⟨by simp [cexC1populated, wfNoMore.eq_def, wfNoMoreList.eq_def, lookupKey],
   populate_thing_noop (fun _ _ => []) "ln0" cexC1populated
     (by simp [cexC1populated, wfNoMore.eq_def, wfNoMoreList.eq_def, lookupKey])⟩

/-- `traverse` on a listing walks its children. -/
theorem traverseListing_eq {fs ds : List (String × J)} {cs : List J}
    (hk : lookupKey fs "kind" = some (.str "Listing"))
    (hd : lookupKey fs "data" = some (.obj ds))
    (hc : lookupKey ds "children" = some (.arr cs)) :
    traverseListing (.obj fs) = traverseChildren cs := by
  rw [traverseListing.eq_def]
  simp only [hk]
  split
  all_goals try (exfalso; simp_all; done)
  rename_i ds2 heq2
  rw [hd] at heq2
  injection heq2 with heq2
  injection heq2 with heq2
  subst heq2
  split
  all_goals try (exfalso; simp_all; done)
  rename_i cs2 heq3
  rw [hc] at heq3
  injection heq3 with heq3
  injection heq3 with heq3
  subst heq3
  rfl

/-- One child with a truthy `replies`: emit the replies-stripped clone,
then the flattened replies, then the remaining siblings. -/
theorem traverseChildren_cons_truthy {cfs dfs : List (String × J)} {rep : J}
    {rest : List J}
    (hd : lookupKey cfs "data" = some (.obj dfs))
    (hrep : lookupKey dfs "replies" = some rep)
    (ht : truthy rep = true) :
    traverseChildren (.obj cfs :: rest) = (do
      let sub ← traverseListing rep
      let tail ← traverseChildren rest
      .ok (J.obj (setKey cfs "data"
        (.obj (dfs.filter (fun kv => kv.1 ≠ "replies")))) :: (sub ++ tail))) := by
  rw [traverseChildren.eq_def]
  split
  all_goals try (exfalso; simp_all; done)
  rename_i child rtail heq0
  injection heq0 with h1 h2
  subst h1
  subst h2
  split
  all_goals try (exfalso; simp_all; done)
  rename_i cfs2 heq1
  injection heq1 with heq1
  subst heq1
  split
  all_goals try (exfalso; simp_all; done)
  rename_i dfs2 heq2
  rw [hd] at heq2
  injection heq2 with heq2
  injection heq2 with heq2
  subst heq2
  split
  all_goals try (exfalso; simp_all; done)
  rename_i rep2 heq3
  rw [hrep] at heq3
  injection heq3 with heq3
  subst heq3
  rw [if_pos ht]

/-- One child whose `replies` key is absent: emit the stripped clone and
continue with the siblings. -/
theorem traverseChildren_cons_leafNone {cfs dfs : List (String × J)}
    {rest : List J}
    (hd : lookupKey cfs "data" = some (.obj dfs))
    (hrep : lookupKey dfs "replies" = none) :
    traverseChildren (.obj cfs :: rest) = (do
      let tail ← traverseChildren rest
      .ok (J.obj (setKey cfs "data"
        (.obj (dfs.filter (fun kv => kv.1 ≠ "replies")))) :: tail)) := by
  rw [traverseChildren.eq_def]
  split
  all_goals try (exfalso; simp_all; done)
  rename_i child rtail heq0
  injection heq0 with h1 h2
  subst h1
  subst h2
  split
  all_goals try (exfalso; simp_all; done)
  rename_i cfs2 heq1
  injection heq1 with heq1
  subst heq1
  split
  all_goals try (exfalso; simp_all; done)
  rename_i dfs2 heq2
  rw [hd] at heq2
  injection heq2 with heq2
  injection heq2 with heq2
  subst heq2
  split
  all_goals try (exfalso; simp_all; done)
  rfl

/-- One child whose `replies` value is falsy (e.g. the upstream empty
string): emit the stripped clone and continue with the siblings. -/
theorem traverseChildren_cons_leafFalsy {cfs dfs : List (String × J)}
    {rep : J} {rest : List J}
    (hd : lookupKey cfs "data" = some (.obj dfs))
    (hrep : lookupKey dfs "replies" = some rep)
    (ht : truthy rep = false) :
    traverseChildren (.obj cfs :: rest) = (do
      let tail ← traverseChildren rest
      .ok (J.obj (setKey cfs "data"
        (.obj (dfs.filter (fun kv => kv.1 ≠ "replies")))) :: tail)) := by
  rw [traverseChildren.eq_def]
  split
  all_goals try (exfalso; simp_all; done)
  rename_i child rtail heq0
  injection heq0 with h1 h2
  subst h1
  subst h2
  split
  all_goals try (exfalso; simp_all; done)
  rename_i cfs2 heq1
  injection heq1 with heq1
  subst heq1
  split
  all_goals try (exfalso; simp_all; done)
  rename_i dfs2 heq2
  rw [hd] at heq2
  injection heq2 with heq2
  injection heq2 with heq2
  subst heq2
  split
  all_goals try (exfalso; simp_all; done)
  rename_i rep2 heq3
  rw [hrep] at heq3
  injection heq3 with heq3
  subst heq3
  rw [if_neg (by simp [ht])]

/-- Claim C6: on a well-formed document whose comments are the post listing
followed by one listing holding comment `C1` (with one reply `R1`) and
comment `C2`, `flatten_comments` returns the document with
`flattened_comments = [C1, R1, C2]` in that depth-first pre-order — each
comment before its replies, siblings in upstream order, each record a copy
whose `data` lacks the `replies` key, and the post node excluded. -/
theorem flatten_comments_shape
    (lfs l0fs d0s pfs l1fs l1ds c1fs c1ds rlfs rlds r1fs r1ds c2fs c2ds :
      List (String × J))
    (hcm : lookupKey lfs "comments" = some (.arr [.obj l0fs, .obj l1fs]))
    (h0k : lookupKey l0fs "kind" = some (.str "Listing"))
    (h0d : lookupKey l0fs "data" = some (.obj d0s))
    (h0c : lookupKey d0s "children" = some (.arr [.obj pfs]))
    (hpk : lookupKey pfs "kind" = some (.str "t3"))
    (h1k : lookupKey l1fs "kind" = some (.str "Listing"))
    (h1d : lookupKey l1fs "data" = some (.obj l1ds))
    (h1c : lookupKey l1ds "children" = some (.arr [.obj c1fs, .obj c2fs]))
    (hc1k : lookupKey c1fs "kind" = some (.str "t1"))
    (hc1d : lookupKey c1fs "data" = some (.obj c1ds))
    (hc1r : lookupKey c1ds "replies" = some (.obj rlfs))
    (hrlk : lookupKey rlfs "kind" = some (.str "Listing"))
    (hrld : lookupKey rlfs "data" = some (.obj rlds))
    (hrlc : lookupKey rlds "children" = some (.arr [.obj r1fs]))
    (hr1k : lookupKey r1fs "kind" = some (.str "t1"))
    (hr1d : lookupKey r1fs "data" = some (.obj r1ds))
    (hr1r : lookupKey r1ds "replies" = none)
    (hc2k : lookupKey c2fs "kind" = some (.str "t1"))
    (hc2d : lookupKey c2fs "data" = some (.obj c2ds))
    (hc2r : lookupKey c2ds "replies" = none) :
    flatten_comments (.obj lfs) =
      .ok (.obj (setKey lfs "flattened_comments" (.arr
        [.obj (setKey c1fs "data"
          (.obj (c1ds.filter (fun kv => kv.1 ≠ "replies")))),
         .obj (setKey r1fs "data"
          (.obj (r1ds.filter (fun kv => kv.1 ≠ "replies")))),
         .obj (setKey c2fs "data"
          (.obj (c2ds.filter (fun kv => kv.1 ≠ "replies"))))]))) := by
  have htr : truthy (J.obj rlfs) = true := by
    have hne : rlfs ≠ [] := lookupKey_ne_nil hrlk
    simp [truthy, hne]
  have e0 : traverseChildren [] = .ok [] := by
    rw [traverseChildren.eq_def]
  simp only [flatten_comments, hcm, h0k, h0d, h0c, hpk, traverseListings,
    traverseListing_eq h1k h1d h1c,
    traverseChildren_cons_truthy hc1d hc1r htr,
    traverseListing_eq hrlk hrld hrlc,
    traverseChildren_cons_leafNone hr1d hr1r,
    traverseChildren_cons_leafNone hc2d hc2r,
    e0, bind, Except.bind, List.append_nil]
  rfl


/-- Witness for C6 at the concrete document: the flattened records are the
replies-stripped `c1`, `r1`, `c2`, in that order. -/
theorem flatten_comments_shape_witness :
    flatten_comments (.obj c6_lfs) =
      .ok (.obj (setKey c6_lfs "flattened_comments" (.arr
        [.obj (setKey c6_c1fs "data"
          (.obj (c6_c1ds.filter (fun kv => kv.1 ≠ "replies")))),
         .obj (setKey c6_r1fs "data"
          (.obj (c6_r1ds.filter (fun kv => kv.1 ≠ "replies")))),
         .obj (setKey c6_c2fs "data"
          (.obj (c6_c2ds.filter (fun kv => kv.1 ≠ "replies"))))]))) :=
  flatten_comments_shape c6_lfs c6_l0fs c6_d0s c6_pfs c6_l1fs c6_l1ds
    c6_c1fs c6_c1ds c6_rlfs c6_rlds c6_r1fs c6_r1ds c6_c2fs c6_c2ds
    rfl rfl rfl rfl rfl rfl rfl rfl rfl rfl rfl rfl rfl rfl rfl rfl rfl
    rfl rfl rfl

/-- Drain phase: once every remaining response surfaces no new ids, the
queue strictly shrinks (each iteration drops up to 10 ids and at least
one), so `queue.length + 1` fuel suffices. -/
theorem do_morechildren_loop_drain (o : Nat → J) :
    ∀ n : Nat, ∀ (q : List J) (k : Nat) (results : List J)
      (reqs : List (List J)),
      q.length ≤ n →
      (∀ m, k ≤ m → newIdsOfResp (o m) = .ok []) →
      ∃ r, do_morechildren_loop o (n + 1) q k results reqs = some (.ok r) := by
  intro n
  induction n with
  | zero =>
    intro q k results reqs hq hfin
    have : q = [] := List.length_eq_zero.mp (by omega)
    subst this
    exact ⟨(results, reqs), by rw [do_morechildren_loop]; rfl⟩
  | succ n ih =>
    intro q k results reqs hq hfin
    rw [do_morechildren_loop]
    by_cases hqe : q.isEmpty
    · exact ⟨(results, reqs), by rw [if_pos hqe]⟩
    · rw [if_neg hqe]
      have hql : 1 ≤ q.length := by
        cases q
        · simp at hqe
        · simp
      have hrec := ih (q.drop 10) (k + 1)
      cases ho : o k with
      | obj fs =>
        have hthis := hfin k (le_refl _)
        rw [ho] at hthis
        have hnew : newIdsOfDict fs = .ok [] := by
          simpa [newIdsOfResp] using hthis
        simp only [hnew, List.append_nil]
        exact hrec (results ++ [J.obj fs]) (reqs ++ [q.take 10])
          (by simp; omega) (fun m hm => hfin m (by omega))
      | null =>
        exact hrec results (reqs ++ [q.take 10]) (by simp; omega)
          (fun m hm => hfin m (by omega))
      | bool b =>
        exact hrec results (reqs ++ [q.take 10]) (by simp; omega)
          (fun m hm => hfin m (by omega))
      | num v =>
        exact hrec results (reqs ++ [q.take 10]) (by simp; omega)
          (fun m hm => hfin m (by omega))
      | str s =>
        exact hrec results (reqs ++ [q.take 10]) (by simp; omega)
          (fun m hm => hfin m (by omega))
      | arr xs =>
        exact hrec results (reqs ++ [q.take 10]) (by simp; omega)
          (fun m hm => hfin m (by omega))

/-- Growth phase: as long as extraction succeeds on every response and all
but the first `j` remaining responses surface no new ids, some fuel makes
the loop finish. -/
theorem do_morechildren_loop_terminates (o : Nat → J) :
    ∀ j : Nat, ∀ (q : List J) (k : Nat) (results : List J)
      (reqs : List (List J)),
      (∀ m, ∃ l, newIdsOfResp (o m) = .ok l) →
      (∀ m, k + j ≤ m → newIdsOfResp (o m) = .ok []) →
      ∃ fuel r, do_morechildren_loop o fuel q k results reqs =
        some (.ok r) := by
  intro j
  induction j with
  | zero =>
    intro q k results reqs hok hfin
    obtain ⟨r, hr⟩ := do_morechildren_loop_drain o q.length q k results reqs
      (le_refl _) (fun m hm => hfin m (by omega))
    exact ⟨q.length + 1, r, hr⟩
  | succ j ih =>
    intro q k results reqs hok hfin
    by_cases hqe : q.isEmpty
    · refine ⟨1, (results, reqs), ?_⟩
      rw [do_morechildren_loop, if_pos hqe]
    · cases ho : o k with
      | obj fs =>
        obtain ⟨l, hl⟩ := hok k
        rw [ho] at hl
        have hl2 : newIdsOfDict fs = .ok l := by
          simpa [newIdsOfResp] using hl
        obtain ⟨fuel, r, hr⟩ := ih (q.drop 10 ++ l) (k + 1)
          (results ++ [J.obj fs]) (reqs ++ [q.take 10]) hok
          (fun m hm => hfin m (by omega))
        refine ⟨fuel + 1, r, ?_⟩
        rw [do_morechildren_loop, if_neg hqe]
        simp only [ho, hl2]
        exact hr
      | null =>
        obtain ⟨fuel, r, hr⟩ := ih (q.drop 10) (k + 1) results
          (reqs ++ [q.take 10]) hok (fun m hm => hfin m (by omega))
        refine ⟨fuel + 1, r, ?_⟩
        rw [do_morechildren_loop, if_neg hqe]
        simp only [ho]
        exact hr
      | bool b =>
        obtain ⟨fuel, r, hr⟩ := ih (q.drop 10) (k + 1) results
          (reqs ++ [q.take 10]) hok (fun m hm => hfin m (by omega))
        refine ⟨fuel + 1, r, ?_⟩
        rw [do_morechildren_loop, if_neg hqe]
        simp only [ho]
        exact hr
      | num v =>
        obtain ⟨fuel, r, hr⟩ := ih (q.drop 10) (k + 1) results
          (reqs ++ [q.take 10]) hok (fun m hm => hfin m (by omega))
        refine ⟨fuel + 1, r, ?_⟩
        rw [do_morechildren_loop, if_neg hqe]
        simp only [ho]
        exact hr
      | str s =>
        obtain ⟨fuel, r, hr⟩ := ih (q.drop 10) (k + 1) results
          (reqs ++ [q.take 10]) hok (fun m hm => hfin m (by omega))
        refine ⟨fuel + 1, r, ?_⟩
        rw [do_morechildren_loop, if_neg hqe]
        simp only [ho]
        exact hr
      | arr xs =>
        obtain ⟨fuel, r, hr⟩ := ih (q.drop 10) (k + 1) results
          (reqs ++ [q.take 10]) hok (fun m hm => hfin m (by omega))
        refine ⟨fuel + 1, r, ?_⟩
        rw [do_morechildren_loop, if_neg hqe]
        simp only [ho]
        exact hr

/-- Every batch ever requested holds at most 10 ids. -/
theorem do_morechildren_loop_batches (o : Nat → J) :
    ∀ (fuel : Nat) (q : List J) (k : Nat) (results : List J)
      (reqs : List (List J)) (r : List J × List (List J)),
      (∀ b ∈ reqs, b.length ≤ 10) →
      do_morechildren_loop o fuel q k results reqs = some (.ok r) →
      ∀ b ∈ r.2, b.length ≤ 10 := by
  intro fuel
  induction fuel with
  | zero =>
    intro q k results reqs r hreqs h
    rw [do_morechildren_loop] at h
    simp at h
  | succ fuel ih =>
    intro q k results reqs r hreqs h
    rw [do_morechildren_loop] at h
    by_cases hqe : q.isEmpty
    · rw [if_pos hqe] at h
      simp only [Option.some.injEq, Except.ok.injEq] at h
      subst h
      exact hreqs
    · rw [if_neg hqe] at h
      have hnext : ∀ b ∈ reqs ++ [q.take 10], b.length ≤ 10 := by
        intro b hb
        rcases List.mem_append.mp hb with hb | hb
        · exact hreqs b hb
        · simp at hb
          subst hb
          simp [List.length_take]
      cases ho : o k with
      | obj fs =>
        rw [ho] at h
        simp only [] at h
        cases hnew : newIdsOfDict fs with
        | ok l =>
          rw [hnew] at h
          exact ih _ _ _ _ _ hnext h
        | error e =>
          rw [hnew] at h
          simp at h
      | null => rw [ho] at h; simp only [] at h; exact ih _ _ _ _ _ hnext h
      | bool b => rw [ho] at h; simp only [] at h; exact ih _ _ _ _ _ hnext h
      | num v => rw [ho] at h; simp only [] at h; exact ih _ _ _ _ _ hnext h
      | str s => rw [ho] at h; simp only [] at h; exact ih _ _ _ _ _ hnext h
      | arr xs => rw [ho] at h; simp only [] at h; exact ih _ _ _ _ _ hnext h

/-- Claim C5: for every initial id list and every response oracle whose
extraction always succeeds and which surfaces new identifiers in only
finitely many iterations (none from iteration `N` on), the
`do_morechildren` work-queue loop terminates with a result — and every
request it issued asked for at most 10 ids (the first at-most-10 of the
queue, removed from it, with freshly extracted ids appended to the same
queue, by definition of `do_morechildren_loop`). -/
theorem do_morechildren_terminates (o : Nat → J) (child_ids : List J)
    (N : Nat)
    (hok : ∀ m, ∃ l, newIdsOfResp (o m) = .ok l)
    (hfin : ∀ m, N ≤ m → newIdsOfResp (o m) = .ok []) :
    ∃ fuel res reqs,
      do_morechildren o child_ids fuel = some (.ok (res, reqs)) ∧
      ∀ b ∈ reqs, b.length ≤ 10 := by
  obtain ⟨fuel, r, hr⟩ := do_morechildren_loop_terminates o N child_ids 0 [] []
    hok (fun m hm => hfin m (by omega))
  exact ⟨fuel, r.1, r.2, by rw [do_morechildren]; exact hr,
    do_morechildren_loop_batches o fuel child_ids 0 [] [] r (by simp) hr⟩

/-- Concrete run of `do_morechildren_terminates`: an oracle that always
responds `{"json": {}}` surfaces no new ids, so a two-id queue drains. -/
theorem do_morechildren_terminates_witness :
    ∃ fuel res reqs,
      do_morechildren (fun _ => J.obj [("json", J.obj [])])
        [J.str "c1", J.str "c2"] fuel = some (.ok (res, reqs)) ∧
      ∀ b ∈ reqs, b.length ≤ 10 :=
  do_morechildren_terminates (fun _ => J.obj [("json", J.obj [])])
    [J.str "c1", J.str "c2"] 0
    (fun _ => ⟨[], by simp [newIdsOfResp, newIdsOfDict, lookupKey,
      childIdsOfChildren]⟩)
    (fun _ _ => by simp [newIdsOfResp, newIdsOfDict, lookupKey,
      childIdsOfChildren])

/-- If the straight-line attempt tail ends in `sys.exit`, the code is 1 and
the trace ends with a release of all held leases followed by the exit
(ringest.py lines 299-302, the only exit inside an attempt). -/
theorem requestStep2_exited (pm : String → Option String)
    (tr : List Response) (o : Nat → Response) (url : String)
    (s0 : RSt) (evs0 : List Ev) (s1 : RSt) (evs : List Ev) (c : Nat)
    (h : requestStep2 pm tr o url s0 evs0 = .done s1 evs (.exited c)) :
    c = 1 ∧ ∃ u pre, evs = pre ++ [Ev.released u, Ev.exitCall 1] := by
  unfold requestStep2 at h
  split at h
  · simp at h
  · simp only [] at h
    split at h
    · simp at h
    · split at h
      · split at h
        · injection h with h1 h2 h3
          injection h3 with h3
          subst h3
          subst h2
          exact ⟨rfl, _, _, rfl⟩
        · split at h
          · simp at h
          · simp at h
      · simp at h

/-- Lifting `requestStep2_exited` over the rate-limit wait: the wait
branch never exits by itself. -/
theorem requestOnce_exited (pm : String → Option String)
    (tr : List Response) (o : Nat → Response) (url : String)
    (s0 s1 : RSt) (evs : List Ev) (c : Nat)
    (h : requestOnce pm tr o url s0 = .done s1 evs (.exited c)) :
    c = 1 ∧ ∃ u pre, evs = pre ++ [Ev.released u, Ev.exitCall 1] := by
  unfold requestOnce at h
  split at h
  · split at h
    · simp at h
    · exact requestStep2_exited pm tr o url s0 _ s1 evs c h
  · exact requestStep2_exited pm tr o url s0 _ s1 evs c h

/-- A response returned by the attempt tail (HTTP 200, or a non-200 handed
back for the retry decision) has just had the rate state updated from its
headers; missing headers leave the int defaults (ringest.py lines
291-297). -/
theorem requestStep2_rate (pm : String → Option String)
    (tr : List Response) (o : Nat → Response) (url : String)
    (s0 : RSt) (evs0 : List Ev) (s1 : RSt) (evs : List Ev) (resp : Response)
    (h : requestStep2 pm tr o url s0 evs0 = .done s1 evs (.ok resp) ∨
         requestStep2 pm tr o url s0 evs0 = .nonOk s1 evs resp)
    (hu : lookupHeader resp.headers "X-Ratelimit-Used" = none)
    (hr : lookupHeader resp.headers "X-Ratelimit-Remaining" = none)
    (hs : lookupHeader resp.headers "X-Ratelimit-Reset" = none) :
    s1.rate_limit_used = .int 0 ∧
    s1.rate_limit_remaining = .int default_rate_limit_remaining ∧
    s1.rate_limit_reset = .int default_rate_limit_reset := by
  rcases h with h | h
  · unfold requestStep2 at h
    split at h
    · simp at h
    · simp only [] at h
      split at h
      · simp at h
      · split at h
        · split at h
          · simp at h
          · split at h
            · simp at h
            · injection h with h1 h2 h3
              injection h3 with h3
              subst h3
              subst h1
              simp [hu, hr, hs]
        · simp at h
  · unfold requestStep2 at h
    split at h
    · simp at h
    · simp only [] at h
      split at h
      · simp at h
      · split at h
        · split at h
          · simp at h
          · split at h
            · injection h with h1 h2 h3
              subst h3
              subst h1
              simp [hu, hr, hs]
            · simp at h
        · simp at h

/-- Lifting `requestStep2_rate` over the rate-limit wait. -/
theorem requestOnce_rate (pm : String → Option String)
    (tr : List Response) (o : Nat → Response) (url : String)
    (s0 s1 : RSt) (evs : List Ev) (resp : Response)
    (h : requestOnce pm tr o url s0 = .done s1 evs (.ok resp) ∨
         requestOnce pm tr o url s0 = .nonOk s1 evs resp)
    (hu : lookupHeader resp.headers "X-Ratelimit-Used" = none)
    (hr : lookupHeader resp.headers "X-Ratelimit-Remaining" = none)
    (hs : lookupHeader resp.headers "X-Ratelimit-Reset" = none) :
    s1.rate_limit_used = .int 0 ∧
    s1.rate_limit_remaining = .int default_rate_limit_remaining ∧
    s1.rate_limit_reset = .int default_rate_limit_reset := by
  unfold requestOnce at h
  rcases h with h | h
  · split at h
    · split at h
      · simp at h
      · exact requestStep2_rate pm tr o url s0 _ s1 evs resp (.inl h) hu hr hs
    · exact requestStep2_rate pm tr o url s0 _ s1 evs resp (.inl h) hu hr hs
  · split at h
    · split at h
      · simp at h
      · exact requestStep2_rate pm tr o url s0 _ s1 evs resp (.inr h) hu hr hs
    · exact requestStep2_rate pm tr o url s0 _ s1 evs resp (.inr h) hu hr hs

/-- Claim C7: whenever `request` terminates the process — on HTTP 414, or
on the retry budget reaching 0 — the exit status is 1 (nonzero) and the
event trace ends with a release of all held leases immediately followed by
the exit call; and a non-200, non-414 response with retries remaining
sleeps exactly 10 time units and retries with the budget decremented by
one, the retry's trace appended after the sleep. -/
theorem request_fatal_release_before_exit (pm : String → Option String)
    (tr : List Response) (o : Nat → Response) (url : String)
    (rl : Int) (s s' : RSt) (evs : List Ev) (c : Nat)
    (h : request pm tr o url rl s = (s', evs, .exited c)) :
    (c = 1 ∧ ∃ u pre, evs = pre ++ [Ev.released u, Ev.exitCall 1]) ∧
    (∀ (s1 : RSt) (evs1 : List Ev) (resp : Response), 0 < rl →
      requestOnce pm tr o url s = .nonOk s1 evs1 resp →
      request pm tr o url rl s =
        ((request pm tr o url (rl - 1) s1).1,
         evs1 ++ [Ev.slept (.int 10)] ++ (request pm tr o url (rl - 1) s1).2.1,
         (request pm tr o url (rl - 1) s1).2.2)) := by
  constructor
  · have main : ∀ (n : Nat) (rl : Int) (s s' : RSt) (evs : List Ev) (c : Nat),
        rl.toNat ≤ n →
        request pm tr o url rl s = (s', evs, .exited c) →
        c = 1 ∧ ∃ u pre, evs = pre ++ [Ev.released u, Ev.exitCall 1] := by
      intro n
      induction n with
      | zero =>
        intro rl s0 s' evs c hn h
        rw [request.eq_def] at h
        by_cases h0 : rl = 0
        · rw [if_pos h0] at h
          simp only [Prod.mk.injEq] at h
          obtain ⟨h1, h2, h3⟩ := h
          injection h3 with h3
          subst h2
          exact ⟨h3.symm, s0.unames, [], rfl⟩
        · rw [if_neg h0] at h
          cases hro : requestOnce pm tr o url s0 with
          | done s1 evs1 out =>
            rw [hro] at h
            simp only [Prod.mk.injEq] at h
            obtain ⟨h1, h2, h3⟩ := h
            subst h3
            exact h2 ▸ requestOnce_exited pm tr o url s0 s1 evs1 c hro
          | nonOk s1 evs1 resp =>
            rw [hro] at h
            simp only [] at h
            rw [dif_neg (by omega : ¬ rl > 0)] at h
            simp only [Prod.mk.injEq] at h
            obtain ⟨h1, h2, h3⟩ := h
            cases h3
      | succ n ih =>
        intro rl s0 s' evs c hn h
        rw [request.eq_def] at h
        by_cases h0 : rl = 0
        · rw [if_pos h0] at h
          simp only [Prod.mk.injEq] at h
          obtain ⟨h1, h2, h3⟩ := h
          injection h3 with h3
          subst h2
          exact ⟨h3.symm, s0.unames, [], rfl⟩
        · rw [if_neg h0] at h
          cases hro : requestOnce pm tr o url s0 with
          | done s1 evs1 out =>
            rw [hro] at h
            simp only [Prod.mk.injEq] at h
            obtain ⟨h1, h2, h3⟩ := h
            subst h3
            exact h2 ▸ requestOnce_exited pm tr o url s0 s1 evs1 c hro
          | nonOk s1 evs1 resp =>
            rw [hro] at h
            simp only [] at h
            by_cases hg : rl > 0
            · rw [dif_pos hg] at h
              rcases hreq : request pm tr o url (rl - 1) s1 with ⟨s2, evs2, out⟩
              rw [hreq] at h
              simp only [Prod.mk.injEq] at h
              obtain ⟨h1, h2, h3⟩ := h
              subst h2
              subst h3
              obtain ⟨hc, u, pre, hpre⟩ :=
                ih (rl - 1) s1 s2 evs2 c (by omega) hreq
              refine ⟨hc, u, evs1 ++ [Ev.slept (.int 10)] ++ pre, ?_⟩
              rw [hpre]
              simp [List.append_assoc]
            · rw [dif_neg hg] at h
              simp only [Prod.mk.injEq] at h
              obtain ⟨h1, h2, h3⟩ := h
              cases h3
    exact main rl.toNat rl s s' evs c (le_refl _) h
  · intro s1 evs1 resp hrl hro
    rw [request.eq_def, if_neg (by omega : ¬ rl = 0), hro]
    simp only []
    rw [dif_pos hrl]

/-- Concrete fatal run for C7: one leased identity and a 414 response; the
call exits with status 1 and its trace ends with the release of the lease
followed by the exit. -/
theorem request_fatal_release_before_exit_witness :
    request (fun _ => none) []
      (fun _ => { status := 414, headers := [], body := J.null }) "u" 1
      { unames := ["u1"], tokens := [J.str "t"], request_sleep := none,
        rate_limit_used := .int 0, rate_limit_remaining := .int 60,
        rate_limit_reset := .int 5, request_count := 0 } =
      ({ unames := ["u1"], tokens := [J.str "t"], request_sleep := none,
         rate_limit_used := .int 0, rate_limit_remaining := .int 60,
         rate_limit_reset := .int 5, request_count := 1 },
       [Ev.httpGet "u" 0, Ev.released ["u1"], Ev.exitCall 1], .exited 1) ∧
    (1 = 1 ∧ ∃ u pre,
      [Ev.httpGet "u" 0, Ev.released ["u1"], Ev.exitCall 1] =
        pre ++ [Ev.released u, Ev.exitCall 1]) :=
  have h : request (fun _ => none) []
      (fun _ => { status := 414, headers := [], body := J.null }) "u" 1
      { unames := ["u1"], tokens := [J.str "t"], request_sleep := none,
        rate_limit_used := .int 0, rate_limit_remaining := .int 60,
        rate_limit_reset := .int 5, request_count := 0 } =
      ({ unames := ["u1"], tokens := [J.str "t"], request_sleep := none,
         rate_limit_used := .int 0, rate_limit_remaining := .int 60,
         rate_limit_reset := .int 5, request_count := 1 },
       [Ev.httpGet "u" 0, Ev.released ["u1"], Ev.exitCall 1], .exited 1) := by
    rw [request.eq_def]
    rfl
  ⟨h, (request_fatal_release_before_exit (fun _ => none) []
      (fun _ => { status := 414, headers := [], body := J.null }) "u" 1
      _ _ _ 1 h).1⟩

/-- Claim C8: when `request` returns a response whose headers contain none
of `X-Ratelimit-Used`, `X-Ratelimit-Remaining`, `X-Ratelimit-Reset`, the
rate state after the call holds the documented int defaults
`(0, default_rate_limit_remaining, default_rate_limit_reset)` =
`(0, 60, 5)`. -/
theorem request_rate_defaults_on_missing_headers (pm : String → Option String)
    (tr : List Response) (o : Nat → Response) (url : String)
    (rl : Int) (s s' : RSt) (evs : List Ev) (resp : Response)
    (h : request pm tr o url rl s = (s', evs, .ok resp))
    (hu : lookupHeader resp.headers "X-Ratelimit-Used" = none)
    (hr : lookupHeader resp.headers "X-Ratelimit-Remaining" = none)
    (hs : lookupHeader resp.headers "X-Ratelimit-Reset" = none) :
    s'.rate_limit_used = .int 0 ∧
    s'.rate_limit_remaining = .int default_rate_limit_remaining ∧
    s'.rate_limit_reset = .int default_rate_limit_reset := by
  have main : ∀ (n : Nat) (rl : Int) (s0 s' : RSt) (evs : List Ev),
      rl.toNat ≤ n →
      request pm tr o url rl s0 = (s', evs, .ok resp) →
      s'.rate_limit_used = .int 0 ∧
      s'.rate_limit_remaining = .int default_rate_limit_remaining ∧
      s'.rate_limit_reset = .int default_rate_limit_reset := by
    intro n
    induction n with
    | zero =>
      intro rl s0 s' evs hn h
      rw [request.eq_def] at h
      by_cases h0 : rl = 0
      · rw [if_pos h0] at h
        simp only [Prod.mk.injEq] at h
        obtain ⟨h1, h2, h3⟩ := h
        cases h3
      · rw [if_neg h0] at h
        cases hro : requestOnce pm tr o url s0 with
        | done s1 evs1 out =>
          rw [hro] at h
          simp only [Prod.mk.injEq] at h
          obtain ⟨h1, h2, h3⟩ := h
          subst h3
          exact h1 ▸ requestOnce_rate pm tr o url s0 s1 evs1 resp
            (.inl hro) hu hr hs
        | nonOk s1 evs1 resp0 =>
          rw [hro] at h
          simp only [] at h
          rw [dif_neg (by omega : ¬ rl > 0)] at h
          simp only [Prod.mk.injEq] at h
          obtain ⟨h1, h2, h3⟩ := h
          injection h3 with h3
          subst h3
          exact h1 ▸ requestOnce_rate pm tr o url s0 s1 evs1 resp0
            (.inr hro) hu hr hs
    | succ n ih =>
      intro rl s0 s' evs hn h
      rw [request.eq_def] at h
      by_cases h0 : rl = 0
      · rw [if_pos h0] at h
        simp only [Prod.mk.injEq] at h
        obtain ⟨h1, h2, h3⟩ := h
        cases h3
      · rw [if_neg h0] at h
        cases hro : requestOnce pm tr o url s0 with
        | done s1 evs1 out =>
          rw [hro] at h
          simp only [Prod.mk.injEq] at h
          obtain ⟨h1, h2, h3⟩ := h
          subst h3
          exact h1 ▸ requestOnce_rate pm tr o url s0 s1 evs1 resp
            (.inl hro) hu hr hs
        | nonOk s1 evs1 resp0 =>
          rw [hro] at h
          simp only [] at h
          by_cases hg : rl > 0
          · rw [dif_pos hg] at h
            rcases hreq : request pm tr o url (rl - 1) s1 with ⟨s2, evs2, out⟩
            rw [hreq] at h
            simp only [Prod.mk.injEq] at h
            obtain ⟨h1, h2, h3⟩ := h
            subst h3
            exact h1 ▸ ih (rl - 1) s1 s2 evs2 (by omega) hreq
          · rw [dif_neg hg] at h
            simp only [Prod.mk.injEq] at h
            obtain ⟨h1, h2, h3⟩ := h
            injection h3 with h3
            subst h3
            exact h1 ▸ requestOnce_rate pm tr o url s0 s1 evs1 resp0
              (.inr hro) hu hr hs
  exact main rl.toNat rl s s' evs (le_refl _) h

/-- Concrete run for C8: a headerless 200 response; the rate state after
the call holds `(0, 60, 5)`. -/
theorem request_rate_defaults_on_missing_headers_witness :
    request (fun _ => none) []
      (fun _ => { status := 200, headers := [], body := J.null }) "u" 1
      { unames := ["u1"], tokens := [J.str "t"], request_sleep := none,
        rate_limit_used := .int 0, rate_limit_remaining := .int 60,
        rate_limit_reset := .int 5, request_count := 0 } =
      ({ unames := ["u1"], tokens := [J.str "t"], request_sleep := none,
         rate_limit_used := .int 0, rate_limit_remaining := .int 60,
         rate_limit_reset := .int 5, request_count := 1 },
       [Ev.httpGet "u" 0],
       .ok { status := 200, headers := [], body := J.null }) ∧
    (lookupHeader ([] : List (String × String)) "X-Ratelimit-Used" = none ∧
     lookupHeader ([] : List (String × String)) "X-Ratelimit-Remaining" = none ∧
     lookupHeader ([] : List (String × String)) "X-Ratelimit-Reset" = none) ∧
    (RSt.rate_limit_used
       { unames := ["u1"], tokens := [J.str "t"], request_sleep := none,
         rate_limit_used := .int 0, rate_limit_remaining := .int 60,
         rate_limit_reset := .int 5, request_count := 1 } = .int 0 ∧
     RSt.rate_limit_remaining
       { unames := ["u1"], tokens := [J.str "t"], request_sleep := none,
         rate_limit_used := .int 0, rate_limit_remaining := .int 60,
         rate_limit_reset := .int 5, request_count := 1 } =
         .int default_rate_limit_remaining ∧
     RSt.rate_limit_reset
       { unames := ["u1"], tokens := [J.str "t"], request_sleep := none,
         rate_limit_used := .int 0, rate_limit_remaining := .int 60,
         rate_limit_reset := .int 5, request_count := 1 } =
         .int default_rate_limit_reset) :=
  have h : request (fun _ => none) []
      (fun _ => { status := 200, headers := [], body := J.null }) "u" 1
      { unames := ["u1"], tokens := [J.str "t"], request_sleep := none,
        rate_limit_used := .int 0, rate_limit_remaining := .int 60,
        rate_limit_reset := .int 5, request_count := 0 } =
      ({ unames := ["u1"], tokens := [J.str "t"], request_sleep := none,
         rate_limit_used := .int 0, rate_limit_remaining := .int 60,
         rate_limit_reset := .int 5, request_count := 1 },
       [Ev.httpGet "u" 0],
       .ok { status := 200, headers := [], body := J.null }) := by
    rw [request.eq_def]
    rfl
  ⟨h, ⟨rfl, rfl, rfl⟩,
   request_rate_defaults_on_missing_headers (fun _ => none) []
     (fun _ => { status := 200, headers := [], body := J.null }) "u" 1
     _ _ _ _ h rfl rfl rfl⟩

theorem heapFrame_trans {n : Nat} {h1 h2 h3 : Heap}
    (f : heapFrame n h1 h2) (g : heapFrame n h2 h3) : heapFrame n h1 h3 :=
  ⟨fun a ha => (g.1 a ha).trans (f.1 a ha), le_trans f.2 g.2⟩

theorem Heap.alloc_frame (h : Heap) (o : HObj) (a : Nat)
    (ha : a < h.objs.length) : (h.alloc o).1.objs[a]? = h.objs[a]? := by
  simp [Heap.alloc, List.getElem?_append_left ha]

theorem Heap.put_frame (h : Heap) (i : Nat) (o : HObj) (a : Nat)
    (hne : a ≠ i) : (h.put i o).objs[a]? = h.objs[a]? := by
  simp only [Heap.put]
  exact List.getElem?_set_ne (Ne.symm hne)

theorem except_bind_ok {α β : Type} {x : Except String α}
    {f : α → Except String β} {b : β} (h : (x >>= f) = .ok b) :
    ∃ a, x = .ok a ∧ f a = .ok b := by
  cases x with
  | error e => simp [Bind.bind, Except.bind] at h
  | ok a => exact ⟨a, rfl, by simpa [Bind.bind, Except.bind] using h⟩

theorem frame_clone (h : Heap) (o1 o2 o3 o4 : HObj) (accA n : Nat)
    (hacc : n ≤ accA) (hlen : n ≤ h.objs.length) :
    heapFrame n h
      ((((h.alloc o1).1.alloc o2).1.put (h.alloc o1).2 o3).put accA o4) := by
  constructor
  · intro a ha
    have e1 : (h.alloc o1).2 = h.objs.length := rfl
    rw [Heap.put_frame _ _ _ a (by omega)]
    rw [Heap.put_frame _ _ _ a (by omega)]
    rw [Heap.alloc_frame _ _ a (by simp [Heap.alloc]; omega)]
    exact Heap.alloc_frame h o1 a (by omega)
  · simp only [Heap.alloc, Heap.put, List.length_set, List.length_append,
      List.length_cons, List.length_nil]
    omega

theorem travChildrenH_frame_of (fuel : Nat)
    (hL : ∀ (n accA : Nat) (h : Heap) (v : HV) (h' : Heap),
      n ≤ accA → n ≤ h.objs.length →
      travListingH fuel accA h v = .ok h' → heapFrame n h h') :
    ∀ (l : List HV) (n accA : Nat) (h h' : Heap),
      n ≤ accA → n ≤ h.objs.length →
      travChildrenH fuel accA h l = .ok h' → heapFrame n h h' := by
  intro l
  induction l with
  | nil =>
    intro n accA h h' hacc hlen hh
    rw [travChildrenH.eq_def] at hh
    simp only [Except.ok.injEq] at hh
    subst hh
    exact ⟨fun a _ => rfl, le_refl _⟩
  | cons child rest ih =>
    intro n accA h h' hacc hlen hh
    rw [travChildrenH.eq_def] at hh
    simp only [] at hh
    repeat' split at hh
    all_goals try (simp at hh; done)
    · -- truthy replies: traverse them, then the remaining siblings
      obtain ⟨h5, ht, hh5⟩ := except_bind_ok hh
      have hf45 := hL n accA _ _ h5 hacc
        (by simp [Heap.alloc, Heap.put]; omega) ht
      have hf5 := ih n accA h5 h' hacc
        (le_trans (by simp [Heap.alloc, Heap.put]; omega) hf45.2) hh5
      exact heapFrame_trans
        (heapFrame_trans (frame_clone h _ _ _ _ accA n hacc hlen) hf45) hf5
    · -- falsy replies: just the remaining siblings
      have hf4 := ih n accA _ h' hacc
        (by simp [Heap.alloc, Heap.put]; omega) hh
      exact heapFrame_trans (frame_clone h _ _ _ _ accA n hacc hlen) hf4

theorem travListingH_frame :
    ∀ (fuel n accA : Nat) (h : Heap) (v : HV) (h' : Heap),
      n ≤ accA → n ≤ h.objs.length →
      travListingH fuel accA h v = .ok h' → heapFrame n h h' := by
  intro fuel
  induction fuel with
  | zero =>
    intro n accA h v h' _ _ hh
    rw [travListingH.eq_def] at hh
    simp at hh
  | succ fuel ih =>
    intro n accA h v h' hacc hlen hh
    rw [travListingH.eq_def] at hh
    simp only [] at hh
    repeat' split at hh
    all_goals try (simp at hh; done)
    all_goals try (injection hh with hh
                   subst hh
                   exact ⟨fun a _ => rfl, le_refl _⟩)
    all_goals exact travChildrenH_frame_of fuel ih _ n accA h h' hacc hlen hh

theorem travListingsH_frame (fuel : Nat) :
    ∀ (l : List HV) (n accA : Nat) (h h' : Heap),
      n ≤ accA → n ≤ h.objs.length →
      travListingsH fuel accA h l = .ok h' → heapFrame n h h' := by
  intro l
  induction l with
  | nil =>
    intro n accA h h' hacc hlen hh
    rw [travListingsH.eq_def] at hh
    simp only [Except.ok.injEq] at hh
    subst hh
    exact ⟨fun a _ => rfl, le_refl _⟩
  | cons cl rest ih =>
    intro n accA h h' hacc hlen hh
    rw [travListingsH.eq_def] at hh
    simp only [] at hh
    obtain ⟨h2, ht, hh2⟩ := except_bind_ok hh
    have f12 := travListingH_frame fuel n accA h cl h2 hacc hlen ht
    have f23 := ih n accA h2 h' hacc (le_trans hlen f12.2) hh2
    exact heapFrame_trans f12 f23

/-- Claim C9: on every input accepted by the precondition checks,
`flatten_commentsH` preserves every pre-existing heap address — the input
`link_doc` and every comment object reachable from it read back unchanged
after the call — and the returned document is a reference to a freshly
allocated object (no aliasing with the input). -/
theorem flatten_commentsH_frame (fuel : Nat) (h : Heap) (link_doc : HV)
    (h' : Heap) (r : HV)
    (hh : flatten_commentsH fuel h link_doc = .ok (h', r)) :
    (∀ a, a < h.objs.length → h'.read a = h.read a) ∧
    ∃ ra, r = .ref ra ∧ h.objs.length ≤ ra := by
  unfold flatten_commentsH at hh
  simp only [] at hh
  repeat' split at hh
  all_goals try (simp at hh; done)
  obtain ⟨h2, ht, hres⟩ := except_bind_ok hh
  have fr := travListingsH_frame fuel _ h.objs.length _ _ h2
    (le_refl _) (by simp [Heap.alloc]) ht
  simp only [Except.ok.injEq, Prod.mk.injEq] at hres
  obtain ⟨hres1, hres2⟩ := hres
  subst hres1
  subst hres2
  constructor
  · intro a ha
    show (h2.alloc _).1.objs[a]? = h.objs[a]?
    rw [Heap.alloc_frame _ _ a (by
      have h2len := fr.2
      have : (h.alloc (HObj.list [])).1.objs.length = h.objs.length + 1 := by
        simp [Heap.alloc]
      omega)]
    rw [fr.1 a ha]
    exact Heap.alloc_frame h _ a ha
  · refine ⟨(h2.alloc _).2, rfl, ?_⟩
    show h.objs.length ≤ h2.objs.length
    have h2len := fr.2
    have : (h.alloc (HObj.list [])).1.objs.length = h.objs.length + 1 := by
      simp [Heap.alloc]
    omega

/-- Concrete run for C9: on `c9heap` the traversal succeeds, all six input
objects read back unchanged, and the result is the fresh reference `@7`. -/
theorem flatten_commentsH_frame_witness :
    flatten_commentsH 1 c9heap (.ref 0) = .ok (c9heap2, .ref 7) ∧
    ((∀ a, a < c9heap.objs.length → c9heap2.read a = c9heap.read a) ∧
     ∃ ra, (HV.ref 7) = .ref ra ∧ c9heap.objs.length ≤ ra) :=
  have h : flatten_commentsH 1 c9heap (.ref 0) = .ok (c9heap2, .ref 7) := by
    simp +decide [flatten_commentsH, Heap.read, Heap.alloc, lookupF, setF,
      travListingsH.eq_def, c9heap, c9heap2]
    rfl
  ⟨h, flatten_commentsH_frame 1 c9heap (.ref 0) c9heap2 (.ref 7) h⟩
